import Mathlib

/-!
Power-aware scheduling simulator (`bats/src/scheduler.cpp`).

A shallow embedding of the `Scheduler` class and a verification of its
specification against it.

Modelling conventions.

* `float` values are rationals (`ℚ`).  The two speed selections,
  `calculate_low_speed` and `calculate_high_speed`, compare a computed target with
  the entries of the speed table, where one unit in the last place decides the
  level: they are computed in binary32, every operation rounded to the nearest
  float, ties to even (`f32`; the one `double` product of `calculate_high_speed`
  goes through `f64`).  Values beyond the largest finite float are not modelled.
  The clock, the remaining computation and the energy are computed exactly.  A
  division whose divisor is zero is reported as `Fault.divByZero`.
* `int` values are unbounded integers (`Int`); `intMax` and `fltMax` are the two
  sentinels the program takes from `std::numeric_limits`.  Integer division is
  the truncating C++ division, `Int.tdiv`.
* `std::vector` is `List`; indexing past the end is `Fault.outOfBounds`.
* `Task::resource`, a pointer into `resourceList`, is the position it points at.
* `runningTask` is set to `&next_task`, the address of a block-local whose lifetime
  ends at the closing brace.  The built program keeps the block-locals
  `arrived_task` (release loop) and `next_task` (both branches of the decision) in
  one piece of storage, and the model follows it: `runningTask` is `none` for
  `NULL` and otherwise holds what that storage holds, so the release loop, which
  writes `arrived_task`, replaces the record that is read through `runningTask`.
* `std::sort` is the stable insertion sort with the comparator of the source.
* Loops that the program does not bound are run with a step budget; running out
  of budget is `Fault.outOfFuel` and is never a behaviour the theorems rely on.
-/

set_option autoImplicit false

namespace Bats

/-- Ways in which a run of the program leaves the model. -/
inductive Fault where
  | outOfBounds
  | nullDeref
  | divByZero
  | uninitialised
  | outOfFuel
  deriving DecidableEq, Repr

deriving instance DecidableEq for Except

/-- Value of `std::numeric_limits<int>::max()`. -/
def intMax : Int := 2147483647

/-- Value of `std::numeric_limits<float>::max()`, that is `2^128 - 2^104`. -/
def fltMax : ℚ := 340282346638528859811704183484516925440

/-- Nearest integer to `n / d`, ties to the even one. -/
def roundHalfEven (n d : Nat) : Nat :=
  if 2 * (n % d) < d then n / d
  else if d < 2 * (n % d) then n / d + 1
  else if n / d % 2 = 0 then n / d else n / d + 1

/-- Number of halvings that bring `n` below 2, counted with a budget. -/
def bitsBelow : Nat → Nat → Nat
  | 0, _ => 0
  | fuel + 1, n => if n < 2 then 0 else bitsBelow fuel (n / 2) + 1

/-- Exponent `e` with `2^e ≤ n / d < 2^(e+1)`, for positive `n` and `d`. -/
def floorLog2 (n d : Nat) : Int :=
  let e0 : Int := (bitsBelow n n : Int) - (bitsBelow d d : Int)
  if e0 ≥ 0 then (if n < d * 2 ^ e0.toNat then e0 - 1 else e0)
  else (if n * 2 ^ (-e0).toNat < d then e0 - 1 else e0)

/-- Rounding to the nearest binary floating-point number with `prec` significant bits
and least normal exponent `emin`: ties to even, gradual underflow below `2^emin`,
no upper bound on the exponent. -/
def roundFloat (prec : Nat) (emin : Int) (x : ℚ) : ℚ :=
  if x = 0 then 0
  else
    let n := x.num.natAbs
    let d := x.den
    let sh : Int := max (floorLog2 n d) emin - ((prec : Int) - 1)
    let mag : ℚ :=
      if sh ≥ 0 then ((roundHalfEven n (d * 2 ^ sh.toNat) * 2 ^ sh.toNat : Nat) : ℚ)
      else ((roundHalfEven (n * 2 ^ (-sh).toNat) d : Nat) : ℚ) / ((2 ^ (-sh).toNat : Nat) : ℚ)
    if x < 0 then -mag else mag

/-- Rounding to binary32, the format of `float`. -/
def f32 (x : ℚ) : ℚ := roundFloat 24 (-126) x

/-- Rounding to binary64, the format of `double`. -/
def f64 (x : ℚ) : ℚ := roundFloat 53 (-1022) x

/-- Element access `v[i]` of a vector. -/
def vecAt {α : Type} (v : List α) (i : Nat) : Except Fault α :=
  match v[i]? with
  | some x => .ok x
  | none => .error .outOfBounds

/-- The `Resource` record: its identity and its priority ceiling. -/
structure Resource where
  index : Int
  ceiling : Int
  deriving DecidableEq, Repr

/-- The `Task` record. -/
structure Task where
  index : Int
  arrivalTime : Int
  period : Int
  wcc : ℚ
  rc : ℚ
  resource : Nat
  blocked : Bool
  burstTime : ℚ
  deriving DecidableEq, Repr

/-- The data members of the `Scheduler` class.  `runningTask` is `none` for `NULL`
and otherwise the record held by the storage the pointer designates. -/
structure Scheduler where
  duration : ℚ
  upTime : ℚ
  nextArriveTime : ℚ
  taskSet : List Task
  initialTaskSet : List Task
  queue : List Task
  resourceList : List Resource
  cpuSpeedSet : List ℚ
  runningTask : Option Task
  LowSpeed : ℚ
  currentSpeed : ℚ
  systemCeiling : Int
  totalPC : ℚ
  totalTaskFinished : Int
  totalLateCount : Int
  upTimeSeries : List ℚ
  speedSeries : List ℚ
  deriving DecidableEq, Repr

namespace Scheduler

/-- Resources built by the constructor: `index = i` for `i < no_of_resources`; the
ceiling starts at the sentinel. -/
def mkResources (no_of_resources : Nat) : List Resource :=
  (List.range no_of_resources).map fun (i : Nat) => { index := (i : Int), ceiling := intMax }

/-- Modelled from the spec: the member initialisers of `scheduler.h`, which is not
part of the sources (time 0, idle processor, counters 0, unbounded system ceiling,
empty queue and trace).  The constructor body is the one of `scheduler.cpp` with
the randomly generated tasks taken as the argument `tasks`: it stores the
duration, builds the resources, sorts the tasks by arrival time and sorts the
speed table. -/
def construct (Duration : ℚ) (tasks : List Task) (no_of_resources : Nat)
    (speeds : List ℚ) : Scheduler :=
  { duration := Duration
    upTime := 0
    nextArriveTime := 0
    taskSet := tasks.insertionSort (fun a b => a.arrivalTime ≤ b.arrivalTime)
    initialTaskSet := []
    queue := []
    resourceList := mkResources no_of_resources
    cpuSpeedSet := speeds.insertionSort (fun a b => a ≤ b)
    runningTask := none
    LowSpeed := 0
    currentSpeed := 0
    systemCeiling := intMax
    totalPC := 0
    totalTaskFinished := 0
    totalLateCount := 0
    upTimeSeries := []
    speedSeries := [] }

/-- `SortTaskSet`: sort the task set by arrival time. -/
def SortTaskSet (s : Scheduler) : Scheduler :=
  { s with taskSet := s.taskSet.insertionSort (fun a b => a.arrivalTime ≤ b.arrivalTime) }

/-- `SortTaskSet_byPeriod`: sort the initial task set by period. -/
def SortTaskSet_byPeriod (s : Scheduler) : Scheduler :=
  { s with initialTaskSet := s.initialTaskSet.insertionSort (fun a b => a.period ≤ b.period) }

/-- `SortQueue`: sort the ready queue by period. -/
def SortQueue (s : Scheduler) : Scheduler :=
  { s with queue := s.queue.insertionSort (fun a b => a.period ≤ b.period) }

/-- Inner loop of `InitResources` for one resource `r`: every task whose resource
has the index of `r` and whose period is below the ceiling of `r` lowers that
ceiling.  `rl` is the resource list the task pointers refer to; the loop only
writes `ceiling`, so the `index` read through a pointer is the one of `rl`. -/
def InitResources_tasks (rl : List Resource) : Resource → List Task → Except Fault Resource
  | r, [] => .ok r
  | r, t :: ts =>
    match vecAt rl t.resource with
    | .error e => .error e
    | .ok tr =>
      if tr.index = r.index ∧ t.period < r.ceiling then
        InitResources_tasks rl { r with ceiling := t.period } ts
      else
        InitResources_tasks rl r ts

/-- Outer loop of `InitResources` over the resources. -/
def InitResources_loop (rl : List Resource) (ts : List Task) :
    List Resource → Except Fault (List Resource)
  | [] => .ok []
  | r :: rs =>
    match InitResources_tasks rl r ts with
    | .error e => .error e
    | .ok r1 =>
      match InitResources_loop rl ts rs with
      | .error e => .error e
      | .ok rs1 => .ok (r1 :: rs1)

/-- `InitResources`: assign the ceiling of every resource. -/
def InitResources (s : Scheduler) : Except Fault Scheduler :=
  match InitResources_loop s.resourceList s.taskSet s.resourceList with
  | .error e => .error e
  | .ok rl => .ok { s with resourceList := rl }

/-- Second loop of `calculate_low_speed` and of `calculate_high_speed`: walk the
speed table, remember the speed just read, stop at the first one that is at least
`target`.  `cur` is the local (`none` while it has not been assigned). -/
def scanSpeeds (target : ℚ) : List ℚ → Option ℚ → Option ℚ
  | [], cur => cur
  | v :: rest, _ => if target ≤ v then some v else scanSpeeds target rest (some v)

/-- Value returned after the scan of the speed table. -/
def pickSpeed (target : ℚ) (speeds : List ℚ) : Except Fault ℚ :=
  match scanSpeeds target speeds none with
  | some v => .ok v
  | none => .error .uninitialised

/-- First loop of `calculate_low_speed`: `target_speed += wcc / period`, a `float`
division by the converted period and a `float` addition. -/
def sumUtilization : List Task → ℚ → Except Fault ℚ
  | [], acc => .ok acc
  | t :: ts, acc =>
    if t.period = 0 then .error .divByZero
    else sumUtilization ts (f32 (acc + f32 (t.wcc / f32 (t.period : ℚ))))

/-- `calculate_low_speed`, in `float` arithmetic. -/
def calculate_low_speed (s : Scheduler) : Except Fault ℚ :=
  match sumUtilization s.taskSet 0 with
  | .error e => .error e
  | .ok target => pickSpeed target s.cpuSpeedSet

/-- First loop of `calculate_high_speed`: add
`floor(period / o.period) * o.wcc` for the tasks `o` of the initial task set, and
stop after the one whose index is `index`.  The quotient is an `int` division,
`std::floor` of it is a `double`, the product is a `double` stored into the `float`
`product`, and the sum is a `float` addition. -/
def sumOfProduct (period index : Int) : List Task → ℚ → Except Fault ℚ
  | [], acc => .ok acc
  | o :: rest, acc =>
    if o.period = 0 then .error .divByZero
    else
      let product := f32 (f64 (((Int.tdiv period o.period : Int) : ℚ) * o.wcc))
      let acc1 := f32 (acc + product)
      if index = o.index then .ok acc1 else sumOfProduct period index rest acc1

/-- `calculate_high_speed`, in `float` arithmetic. -/
def calculate_high_speed (s : Scheduler) (T : Task) : Except Fault ℚ :=
  match s.runningTask with
  | none => .error .nullDeref
  | some r =>
    if s.currentSpeed = 0 then .error .divByZero
    else
      let B := f32 (r.rc / s.currentSpeed)
      match sumOfProduct T.period T.index s.initialTaskSet 0 with
      | .error e => .error e
      | .ok sum_of_product =>
        if T.period = 0 then .error .divByZero
        else pickSpeed (f32 (f32 (B + sum_of_product) / f32 (T.period : ℚ))) s.cpuSpeedSet

/-- Loop of `check_earliest_queue_task` from position `i` on. -/
def earliestLoop : List Task → Nat → Int → Nat → Nat
  | [], _, _, earliest_task_index => earliest_task_index
  | q :: rest, i, earliest_deadline, earliest_task_index =>
    if q.arrivalTime + q.period < earliest_deadline then
      earliestLoop rest (i + 1) (q.arrivalTime + q.period) i
    else
      earliestLoop rest (i + 1) earliest_deadline earliest_task_index

/-- `check_earliest_queue_task`: position of the queued task with the earliest
deadline, `-1` for an empty queue. -/
def check_earliest_queue_task (s : Scheduler) : Int :=
  match s.queue with
  | [] => -1
  | q0 :: rest => (earliestLoop rest 1 (q0.arrivalTime + q0.period) 0 : Nat)

/-- Body of `get_wattage` as a function of the speed table it reads. -/
def wattageOf (cpuSpeedSet : List ℚ) (speed : ℚ) : Except Fault ℚ :=
  match vecAt cpuSpeedSet 5 with
  | .error e => .error e
  | .ok c5 =>
    if speed = c5 then .ok (925 / 1000) else
    match vecAt cpuSpeedSet 4 with
    | .error e => .error e
    | .ok c4 =>
      if speed = c4 then .ok (747 / 1000) else
      match vecAt cpuSpeedSet 3 with
      | .error e => .error e
      | .ok c3 =>
        if speed = c3 then .ok (570 / 1000) else
        match vecAt cpuSpeedSet 2 with
        | .error e => .error e
        | .ok c2 =>
          if speed = c2 then .ok (390 / 1000) else
          match vecAt cpuSpeedSet 1 with
          | .error e => .error e
          | .ok c1 =>
            if speed = c1 then .ok (279 / 1000) else .ok (116 / 1000)

/-- `get_wattage`. -/
def get_wattage (s : Scheduler) (speed : ℚ) : Except Fault ℚ :=
  wattageOf s.cpuSpeedSet speed

/-- `handle_finished_task`. -/
def handle_finished_task (s : Scheduler) : Except Fault Scheduler :=
  match s.runningTask with
  | none => .error .nullDeref
  | some r =>
    let s1 : Scheduler :=
      if r.blocked then
        { s with runningTask := some { r with blocked := false }, currentSpeed := s.LowSpeed }
      else s
    .ok { s1 with
      totalTaskFinished := s1.totalTaskFinished + 1
      runningTask := none
      systemCeiling := intMax }

/-- `handle_late_task`. -/
def handle_late_task (s : Scheduler) (index : Int) : Except Fault Scheduler :=
  if index < 0 then .error .outOfBounds
  else
    match vecAt s.queue index.toNat with
    | .error e => .error e
    | .ok lateTask =>
      let s1 : Scheduler :=
        if lateTask.blocked then { s with currentSpeed := s.LowSpeed } else s
      .ok { s1 with
        queue := s1.queue.eraseIdx index.toNat
        totalLateCount := s1.totalLateCount + 1 }

/-- In `calculate_exec_time`: time the running task needs to finish at the current
speed, the largest float when the processor is idle. -/
def execTime_finish (s : Scheduler) : Except Fault ℚ :=
  match s.runningTask with
  | some r => if s.currentSpeed = 0 then .error .divByZero else .ok (r.rc / s.currentSpeed)
  | none => .ok fltMax

/-- In `calculate_exec_time`: time until the earliest deadline of a queued task, the
largest float when `check_earliest_queue_task` returned `-1`. -/
def execTime_queue (s : Scheduler) (queueTask_index : Int) : Except Fault ℚ :=
  if queueTask_index ≠ -1 then
    match vecAt s.queue queueTask_index.toNat with
    | .error e => .error e
    | .ok q => .ok (((q.arrivalTime + q.period : Int) : ℚ) - s.upTime)
  else .ok fltMax

/-- In `calculate_exec_time`: the block `if (runningTask != NULL)` that charges the
step to the running task and to the energy total. -/
def chargeStep (s : Scheduler) (execTime : ℚ) : Except Fault Scheduler :=
  match s.runningTask with
  | some r =>
    match get_wattage s s.currentSpeed with
    | .error e => .error e
    | .ok wattage =>
      .ok { s with
        runningTask := some { r with
          burstTime := r.burstTime + execTime
          rc := r.rc - s.currentSpeed * execTime }
        totalPC := s.totalPC + execTime * wattage }
  | none => .ok s

/-- `calculate_exec_time`: the new state and the returned step length. -/
def calculate_exec_time (s0 : Scheduler) : Except Fault (Scheduler × ℚ) :=
  match vecAt s0.taskSet 0 with
  | .error e => .error e
  | .ok t0 =>
    let s : Scheduler := { s0 with nextArriveTime := (t0.arrivalTime : ℚ) }
    let execTime_arrive := s.nextArriveTime - s.upTime
    match execTime_finish s with
    | .error e => .error e
    | .ok execTime_finish =>
      let queueTask_index := check_earliest_queue_task s
      match execTime_queue s queueTask_index with
      | .error e => .error e
      | .ok execTime_queue =>
        let execTime := min execTime_arrive (min execTime_finish execTime_queue)
        match chargeStep s execTime with
        | .error e => .error e
        | .ok s1 =>
          match (if execTime = execTime_finish then handle_finished_task s1 else .ok s1) with
          | .error e => .error e
          | .ok s2 =>
            match (if execTime = execTime_queue then handle_late_task s2 queueTask_index
                   else .ok s2) with
            | .error e => .error e
            | .ok s3 => .ok (s3, execTime)

/-- Inner `while` of `Start`: release every task whose arrival time is at most
`nextArriveTime`, re-arming it by its period.  `Task arrived_task = taskSet[0]`
writes the storage that a non-null `runningTask` points to. -/
def Start_release_loop : Nat → Scheduler → Except Fault Scheduler
  | 0, _ => .error .outOfFuel
  | fuel + 1, s =>
    match vecAt s.taskSet 0 with
    | .error e => .error e
    | .ok t0 =>
      if (t0.arrivalTime : ℚ) ≤ s.nextArriveTime then
        let s1 := SortQueue { s with
          runningTask := s.runningTask.map fun _ => t0
          queue := s.queue ++ [t0] }
        let s2 := SortTaskSet { s1 with
          taskSet := s1.taskSet.set 0 { t0 with arrivalTime := t0.arrivalTime + t0.period } }
        Start_release_loop fuel s2
      else .ok s

/-- The arrival part of an iteration of `Start`. -/
def Start_release (fuel : Nat) (s : Scheduler) : Except Fault Scheduler :=
  if s.upTime ≥ s.nextArriveTime then Start_release_loop fuel s else .ok s

/-- The dispatch / preemption decision of an iteration of `Start`.  Both branches
that start a task execute `Task next_task = queue[0]; runningTask = &next_task;`:
the storage read through `runningTask` holds the dequeued task from then on, until
the release loop writes it again. -/
def Start_dispatch (s : Scheduler) : Except Fault Scheduler :=
  match s.runningTask with
  | none =>
    match s.queue with
    | [] => .ok s
    | next_task :: rest =>
      match vecAt s.resourceList next_task.resource with
      | .error e => .error e
      | .ok res =>
        .ok { s with runningTask := some next_task, queue := rest, systemCeiling := res.ceiling }
  | some running =>
    match s.queue with
    | [] => .ok s
    | head :: rest =>
      if head.period < running.period then
        if head.period < s.systemCeiling then
          .ok (SortQueue { s with runningTask := some head, queue := rest ++ [running] })
        else
          let flagged : Task := { head with blocked := true }
          let s1 : Scheduler := { s with queue := flagged :: rest }
          match calculate_high_speed s1 flagged with
          | .error e => .error e
          | .ok newSpeed =>
            if newSpeed > s1.currentSpeed then .ok { s1 with currentSpeed := newSpeed }
            else .ok s1
      else .ok s

/-- The part of an iteration of `Start` that precedes the decision: record the
trace, compute the step, advance the clock, release the arrivals. -/
def Start_advance (fuel : Nat) (s : Scheduler) : Except Fault Scheduler :=
  let s1 : Scheduler := { s with
    upTimeSeries := s.upTimeSeries ++ [s.upTime]
    speedSeries := s.speedSeries ++ [s.currentSpeed] }
  match calculate_exec_time s1 with
  | .error e => .error e
  | .ok (s2, execTime) =>
    Start_release fuel { s2 with upTime := s2.upTime + execTime }

/-- One iteration of the `while` loop of `Start`. -/
def Start_body (fuel : Nat) (s : Scheduler) : Except Fault Scheduler :=
  match Start_advance fuel s with
  | .error e => .error e
  | .ok s1 => Start_dispatch s1

/-- `Start`: iterate while `upTime < duration`. -/
def Start : Nat → Scheduler → Except Fault Scheduler
  | 0, s => if s.upTime < s.duration then .error .outOfFuel else .ok s
  | fuel + 1, s =>
    if s.upTime < s.duration then
      match Start_body fuel s with
      | .error e => .error e
      | .ok s1 => Start fuel s1
    else .ok s

/-- State after the first `n` iterations of the loop of `Start` (fewer when the
loop stops earlier). -/
def Start_steps (fuel : Nat) : Nat → Scheduler → Except Fault Scheduler
  | 0, s => .ok s
  | n + 1, s =>
    if s.upTime < s.duration then
      match Start_body fuel s with
      | .error e => .error e
      | .ok s1 => Start_steps fuel n s1
    else .ok s

/-- First loop of `Init`: `taskSet[i].index = i`. -/
def assignIndex : List Task → Nat → List Task
  | [], _ => []
  | t :: ts, i => { t with index := (i : Int) } :: assignIndex ts (i + 1)

/-- `Init`. -/
def Init (s : Scheduler) : Except Fault Scheduler :=
  let s1 : Scheduler := { s with taskSet := assignIndex s.taskSet 0 }
  let s2 : Scheduler := SortTaskSet_byPeriod { s1 with initialTaskSet := s1.taskSet }
  match calculate_low_speed s2 with
  | .error e => .error e
  | .ok low =>
    InitResources { s2 with LowSpeed := low, currentSpeed := low }

/-- The utilisation `Σ wcc_i / period_i` of a task set in real arithmetic, as the
specification writes it. -/
def exactUtilization (ts : List Task) : ℚ :=
  (ts.map fun t => t.wcc / (t.period : ℚ)).sum

/-- The utilisation of a task set accumulated in `float` arithmetic from `acc`, in
the order of the tasks: every quotient and every partial sum is rounded to
binary32. -/
def utilizationFrom : List Task → ℚ → ℚ
  | [], acc => acc
  | t :: ts, acc => utilizationFrom ts (f32 (acc + f32 (t.wcc / f32 (t.period : ℚ))))

/-- The utilisation `Σ wcc_i / period_i` of a task set in `float` arithmetic. -/
def utilization (ts : List Task) : ℚ := utilizationFrom ts 0

/-- The demand `S` of the specification of `calculate_high_speed` in real
arithmetic: the sum of `⌊T.period / o.period⌋ * o.wcc` over the tasks `o` of `l`,
from the first one up to and including the one whose index is the index of `T`. -/
def exactDemandUpTo (T : Task) : List Task → ℚ
  | [] => 0
  | o :: rest =>
    ((⌊(T.period : ℚ) / (o.period : ℚ)⌋ : Int) : ℚ) * o.wcc +
      (if T.index = o.index then 0 else exactDemandUpTo T rest)

/-- The demand accumulated in `float` arithmetic from `acc`: every product
`⌊T.period / o.period⌋ * o.wcc` and every partial sum is rounded to binary32. -/
def demandFrom (T : Task) : List Task → ℚ → ℚ
  | [], acc => acc
  | o :: rest, acc =>
    if T.index = o.index then
      f32 (acc + f32 (f64 (((⌊(T.period : ℚ) / (o.period : ℚ)⌋ : Int) : ℚ) * o.wcc)))
    else
      demandFrom T rest
        (f32 (acc + f32 (f64 (((⌊(T.period : ℚ) / (o.period : ℚ)⌋ : Int) : ℚ) * o.wcc))))

/-- The demand `S` of `calculate_high_speed` in `float` arithmetic: the sum of
`⌊T.period / o.period⌋ * o.wcc` over the tasks `o` of `l`, from the first one up to
and including the one whose index is the index of `T`. -/
def demandUpTo (T : Task) (l : List Task) : ℚ := demandFrom T l 0

/-- The target `(B + S) / T.period` of `calculate_high_speed` in `float`
arithmetic, with `B = R.rc / currentSpeed` for the running task `R`. -/
def highTarget (s : Scheduler) (T R : Task) : ℚ :=
  f32 (f32 (f32 (R.rc / s.currentSpeed) + demandUpTo T s.initialTaskSet) / f32 (T.period : ℚ))

/-- The target `(B + S) / T.period` of `calculate_high_speed` in real arithmetic. -/
def exactHighTarget (s : Scheduler) (T R : Task) : ℚ :=
  (R.rc / s.currentSpeed + exactDemandUpTo T s.initialTaskSet) / (T.period : ℚ)

/-- A speed `v` is the one the specification selects for `target` in `speeds`:
the smallest speed that is at least `target`, the largest speed when there is
none. -/
def SelectedSpeed (target : ℚ) (speeds : List ℚ) (v : ℚ) : Prop :=
  v ∈ speeds ∧
  ((∃ x ∈ speeds, target ≤ x) → target ≤ v ∧ ∀ x ∈ speeds, target ≤ x → v ≤ x) ∧
  ((∀ x ∈ speeds, x < target) → ∀ x ∈ speeds, x ≤ v)

/-- A task as the constructor creates it: `rc = wcc`, not blocked, no burst time;
the index is assigned later by `Init`. -/
def newTask (arrivalTime period : Int) (wcc : ℚ) (resource : Nat) : Task :=
  { index := 0, arrivalTime := arrivalTime, period := period, wcc := wcc, rc := wcc,
    resource := resource, blocked := false, burstTime := 0 }

/-- Six speed levels used by the examples: the floats `0.1, 0.2, 0.4, 0.6, 0.8, 1.0`. -/
def exampleSpeeds : List ℚ := [f32 (1/10), f32 (1/5), f32 (2/5), f32 (3/5), f32 (4/5), 1]

/-- The four speed levels of the examples of the specification: the floats
`0.4, 0.6, 0.8, 1.0`. -/
def exampleSpeeds4 : List ℚ := [f32 (2/5), f32 (3/5), f32 (4/5), 1]

/-- Six speed levels with a gap: the floats `0.1, 0.5, 0.6, 0.7, 0.8, 1.0`. -/
def exampleSpeedsGap : List ℚ := [f32 (1/10), 1/2, f32 (3/5), f32 (7/10), f32 (4/5), 1]

/-- Example: two tasks of utilisation `3/10 + 3/10 = 0.6` and the speeds
`0.4, 0.6, 0.8, 1.0`. -/
def exampleUtil06 : Scheduler :=
  construct 100 [newTask 0 10 3 0, newTask 0 20 6 0] 1 exampleSpeeds4

/-- Example: two tasks of utilisation `8/10 + 10/20 = 1.3` and the speeds
`0.4, 0.6, 0.8, 1.0`. -/
def exampleUtil13 : Scheduler :=
  construct 100 [newTask 0 10 8 0, newTask 0 20 10 0] 1 exampleSpeeds4

/-- Example: a task `L` of period 20 with `rc = 0.1` runs at speed `1/2` while the
task `H` of period 5 and index 1 asks for the high speed. -/
def exampleHigh : Scheduler :=
  { construct 100 [] 1 exampleSpeedsGap with
    initialTaskSet := [{ newTask 1 5 1 0 with index := 1 }, newTask 0 20 (f32 (3/5)) 0]
    runningTask := some { newTask 0 20 (f32 (3/5)) 0 with rc := f32 (1/10) }
    currentSpeed := 1/2
    LowSpeed := 1/2 }

/-- Example: two tasks of period 15 and costs 2 and 4, whose utilisation in real
arithmetic is exactly `0.4`, and the six example speeds. -/
def exampleRounding : Scheduler :=
  construct 100 [newTask 0 15 2 0, newTask 0 15 4 0] 1 exampleSpeeds

/-- Example: a task `R` of period 30 with `rc = 0.6` runs at speed `0.2` while the
task `H` of period 10, cost 1 and index 1 asks for the high speed. -/
def exampleHighRounding : Scheduler :=
  { construct 100 [] 1 exampleSpeeds with
    initialTaskSet := [{ newTask 1 10 1 0 with index := 1 }, newTask 0 30 3 0]
    runningTask := some { newTask 0 30 3 0 with rc := f32 (3/5) }
    currentSpeed := f32 (1/5)
    LowSpeed := f32 (1/5) }

/-- The members that are fixed once `Init` has run: resources (with their
ceilings), speed table, low speed, stored initial task set and duration. -/
def SameConfig (s s1 : Scheduler) : Prop :=
  s1.resourceList = s.resourceList ∧ s1.cpuSpeedSet = s.cpuSpeedSet ∧
  s1.LowSpeed = s.LowSpeed ∧ s1.initialTaskSet = s.initialTaskSet ∧
  s1.duration = s.duration

/-- The state a run produced, or `d` when the run left the model. -/
def stateOr (d : Scheduler) (r : Except Fault Scheduler) : Scheduler :=
  match r with
  | .ok s => s
  | .error _ => d

/-- Example: three tasks and three resources.  `L` (period 20) uses resource 0,
`H` (period 5) and `M` (period 10) use resource 1, nothing uses resource 2. -/
def examplePreempt : Scheduler :=
  construct 100 [newTask 0 20 4 0, newTask 1 5 2 1, newTask 2 10 1 1] 3 exampleSpeeds

/-- Example: three tasks and two resources.  `L` (period 20, released at 0) uses
resource 0; `Y` (released at 1) and `X` (released at 2), both of period 10, use
resource 1. -/
def exampleStale : Scheduler :=
  construct 100 [newTask 0 20 4 0, newTask 1 10 1 1, newTask 2 10 1 1] 2 exampleSpeeds

/-- The run of `exampleStale` up to the decision of the third iteration of `Start`:
`Init`, two iterations, and the part of the third iteration that precedes the
decision. -/
def exampleStaleRun : Except Fault Scheduler :=
  match Init exampleStale with
  | .error e => .error e
  | .ok s0 =>
    match Start_steps 4 2 s0 with
    | .error e => .error e
    | .ok s2 => Start_advance 4 s2

/-- State of `exampleStale` at the decision of the third iteration. -/
def exampleStaleState : Scheduler := stateOr exampleStale exampleStaleRun

/-- Example of a decision that blocks: `L` (period 20, `rc = 2`) runs at speed `1/2`
under the system ceiling 5 and `H` (period 5, index 1) heads the queue. -/
def exampleDecisionBlock : Scheduler :=
  { construct 100 [] 1 exampleSpeedsGap with
    initialTaskSet := [{ newTask 1 5 1 0 with index := 1 }, newTask 0 20 4 0]
    runningTask := some { newTask 0 20 4 0 with rc := 2 }
    queue := [{ newTask 1 5 1 0 with index := 1 }]
    systemCeiling := 5
    currentSpeed := 1/2
    LowSpeed := 1/2 }

/-- Example: two tasks of utilisation `5/10 + 10/20 = 1` and the speeds
`0.4, 0.6, 0.8, 1.0`: a feasible task set that selects the largest speed. -/
def exampleUtil10 : Scheduler :=
  construct 100 [newTask 0 10 5 0, newTask 0 20 10 0] 1 exampleSpeeds4

/-- Everything a scheduler holds apart from the task records themselves. -/
def withoutTasks (s : Scheduler) : Scheduler :=
  { s with taskSet := [], initialTaskSet := [] }

/-- Example: a configuration with no task and no resource. -/
def exampleNoTasks : Scheduler := construct 100 [] 0 exampleSpeeds

/-- Example: a configuration whose only task has period 0. -/
def exampleZeroPeriod : Scheduler := construct 100 [newTask 0 0 1 0] 1 exampleSpeeds

/-- Example: the two tasks `L` (period 20, cost 4, released at 0) and `H` (period 5,
cost 1, released at 1) share the only resource. -/
def exampleBoost : Scheduler :=
  construct 100 [newTask 0 20 4 0, newTask 1 5 1 0] 1 exampleSpeedsGap

/-- State of `exampleBoost` after `Init` and `n` iterations of `Start`. -/
def exampleBoostState (n : Nat) : Scheduler :=
  stateOr exampleBoost (match Init exampleBoost with
    | .error e => .error e
    | .ok s0 => Start_steps 4 n s0)

/-- The six wattages of `get_wattage`, from the lowest level to the highest. -/
def wattageLevels : List ℚ := [116/1000, 279/1000, 390/1000, 570/1000, 747/1000, 925/1000]

/-- State of `examplePreempt` after `Init` and `n` iterations of `Start`. -/
def examplePreemptAfter (n : Nat) : Scheduler :=
  stateOr examplePreempt (match Init examplePreempt with
    | .error e => .error e
    | .ok s0 => Start_steps 4 n s0)

/-- Example: `L` (period 10, cost 15, released at 0) uses resource 0 and `H`
(period 5, cost 1, released at 12) uses resource 1; the top speed is 1. -/
def exampleExpired : Scheduler :=
  construct 100 [newTask 0 10 15 0, newTask 12 5 1 1] 2 exampleSpeeds

/-- The run of `exampleExpired` through `Init` and `n` iterations of `Start`. -/
def exampleExpiredRun (n : Nat) : Except Fault Scheduler :=
  match Init exampleExpired with
  | .error e => .error e
  | .ok s0 => Start_steps 4 n s0

/-- State of `exampleExpired` after `Init` and `n` iterations of `Start`. -/
def exampleExpiredAfter (n : Nat) : Scheduler :=
  stateOr exampleExpired (exampleExpiredRun n)

/-- Example: three tasks on the only resource: `L` (period 20, cost 1, released at
0), `H` (period 5, cost 3, released at 1) and `M` (period 30, cost the float `1.2`,
released at 2). -/
def exampleLostFlag : Scheduler :=
  construct 100 [newTask 0 20 1 0, newTask 1 5 3 0, newTask 2 30 (f32 (6/5)) 0] 1
    exampleSpeeds

/-- State of `exampleLostFlag` after `Init` and `n` iterations of `Start`. -/
def exampleLostFlagAfter (n : Nat) : Scheduler :=
  stateOr exampleLostFlag (match Init exampleLostFlag with
    | .error e => .error e
    | .ok s0 => Start_steps 4 n s0)



theorem scanSpeeds_some (target : ℚ) (l : List ℚ) (c : ℚ) :
    ∃ v, scanSpeeds target l (some c) = some v ∧ (v = c ∨ v ∈ l) := by
  induction l generalizing c with
  | nil => exact ⟨c, rfl, Or.inl rfl⟩
  | cons a l ih =>
    by_cases h : target ≤ a
    · exact ⟨a, by simp [scanSpeeds, h], Or.inr (by simp)⟩
    · obtain ⟨v, hv, hmem⟩ := ih a
      refine ⟨v, by simp [scanSpeeds, h, hv], Or.inr ?_⟩
      rcases hmem with rfl | hmem
      · simp
      · simp [hmem]

theorem scanSpeeds_first (target : ℚ) (l : List ℚ) (cur : Option ℚ)
    (hex : ∃ x ∈ l, target ≤ x) (hs : l.Sorted (· ≤ ·)) :
    ∃ v, scanSpeeds target l cur = some v ∧ v ∈ l ∧ target ≤ v ∧
      ∀ x ∈ l, target ≤ x → v ≤ x := by
  induction l generalizing cur with
  | nil => simp at hex
  | cons a l ih =>
    by_cases h : target ≤ a
    · refine ⟨a, by simp [scanSpeeds, h], by simp, h, ?_⟩
      intro x hx _
      rcases List.mem_cons.mp hx with rfl | hx
      · exact le_refl _
      · exact List.rel_of_sorted_cons hs x hx
    · have hex2 : ∃ x ∈ l, target ≤ x := by
        obtain ⟨x, hx, hle⟩ := hex
        rcases List.mem_cons.mp hx with rfl | hx
        · exact absurd hle h
        · exact ⟨x, hx, hle⟩
      obtain ⟨v, hv, hmem, hle, hmin⟩ := ih (some a) hex2 hs.of_cons
      refine ⟨v, by simp [scanSpeeds, h, hv], by simp [hmem], hle, ?_⟩
      intro x hx hxt
      rcases List.mem_cons.mp hx with rfl | hx
      · exact absurd hxt h
      · exact hmin x hx hxt

theorem scanSpeeds_last (target : ℚ) (l : List ℚ) (cur : Option ℚ)
    (hall : ∀ x ∈ l, x < target) (hne : l ≠ []) :
    scanSpeeds target l cur = some (l.getLast hne) := by
  induction l generalizing cur with
  | nil => exact absurd rfl hne
  | cons a l ih =>
    have ha : ¬ target ≤ a := not_le.mpr (hall a (by simp))
    cases l with
    | nil => simp [scanSpeeds, ha]
    | cons b l =>
      have := ih (some a) (fun x hx => hall x (by simp [List.mem_cons.mp hx])) (by simp)
      simp only [scanSpeeds, ha, if_false] at this ⊢
      simpa using this

theorem sorted_le_getLast (l : List ℚ) (hs : l.Sorted (· ≤ ·)) (hne : l ≠ []) :
    ∀ x ∈ l, x ≤ l.getLast hne := by
  induction l with
  | nil => exact absurd rfl hne
  | cons a l ih =>
    intro x hx
    cases l with
    | nil => simp at hx; simp [hx]
    | cons b l =>
      rw [List.getLast_cons (by simp)]
      rcases List.mem_cons.mp hx with rfl | hx
      · exact List.rel_of_sorted_cons hs _ (List.getLast_mem _)
      · exact ih hs.of_cons (by simp) x hx

theorem pickSpeed_spec (target : ℚ) (l : List ℚ) (hne : l ≠ []) (hs : l.Sorted (· ≤ ·)) :
    ∃ v, pickSpeed target l = .ok v ∧ SelectedSpeed target l v ∧
      ((∀ x ∈ l, x < target) → v = l.getLast hne) := by
  by_cases hex : ∃ x ∈ l, target ≤ x
  · obtain ⟨v, hv, hmem, hle, hmin⟩ := scanSpeeds_first target l none hex hs
    refine ⟨v, by simp [pickSpeed, hv], ⟨hmem, fun _ => ⟨hle, hmin⟩, ?_⟩, ?_⟩
    · intro hall
      obtain ⟨x, hx, hxt⟩ := hex
      exact absurd hxt (not_le.mpr (hall x hx))
    · intro hall
      obtain ⟨x, hx, hxt⟩ := hex
      exact absurd hxt (not_le.mpr (hall x hx))
  · have hall : ∀ x ∈ l, x < target := fun x hx => not_le.mp fun hle => hex ⟨x, hx, hle⟩
    refine ⟨l.getLast hne, by simp [pickSpeed, scanSpeeds_last target l none hall hne],
      ⟨List.getLast_mem _, fun h => absurd h hex, fun _ => sorted_le_getLast l hs hne⟩,
      fun _ => rfl⟩

theorem pickSpeed_ok_of_ne_nil (target : ℚ) (l : List ℚ) (hne : l ≠ []) :
    ∃ v, pickSpeed target l = .ok v ∧ v ∈ l := by
  cases l with
  | nil => exact absurd rfl hne
  | cons a l =>
    by_cases h : target ≤ a
    · exact ⟨a, by simp [pickSpeed, scanSpeeds, h], by simp⟩
    · obtain ⟨v, hv, hmem⟩ := scanSpeeds_some target l a
      refine ⟨v, by simp [pickSpeed, scanSpeeds, h, hv], ?_⟩
      rcases hmem with rfl | hmem
      · simp
      · simp [hmem]

/-! ## The utilisation sum -/

theorem sumUtilization_eq (ts : List Task) (acc : ℚ) (hper : ∀ t ∈ ts, t.period ≠ 0) :
    sumUtilization ts acc = .ok (utilizationFrom ts acc) := by
  induction ts generalizing acc with
  | nil => simp [sumUtilization, utilizationFrom]
  | cons t ts ih =>
    have h0 : t.period ≠ 0 := hper t (by simp)
    simp only [sumUtilization, h0, if_false, utilizationFrom]
    exact ih _ (fun x hx => hper x (by simp [hx]))

theorem utilizationFrom_zero (ts : List Task) : utilizationFrom ts 0 = utilization ts := rfl

theorem calculate_low_speed_eq (s : Scheduler) (hper : ∀ t ∈ s.taskSet, t.period ≠ 0) :
    calculate_low_speed s = pickSpeed (utilization s.taskSet) s.cpuSpeedSet := by
  simp [calculate_low_speed, sumUtilization_eq s.taskSet 0 hper, utilization]

/-! ## The demand sum of `calculate_high_speed` -/

theorem tdiv_eq_floor (a b : Int) (ha : 0 ≤ a) (hb : 0 < b) :
    Int.tdiv a b = ⌊(a : ℚ) / (b : ℚ)⌋ := by
  rw [Int.tdiv_eq_ediv ha hb.le]
  obtain ⟨n, rfl⟩ := Int.eq_ofNat_of_zero_le hb.le
  have := Rat.floor_intCast_div_natCast a n
  simpa using this.symm

theorem sumOfProduct_eq (T : Task) (l : List Task) (acc : ℚ) (hT : 0 ≤ T.period)
    (hpos : ∀ o ∈ l, 0 < o.period) :
    sumOfProduct T.period T.index l acc = .ok (demandFrom T l acc) := by
  induction l generalizing acc with
  | nil => simp [sumOfProduct, demandFrom]
  | cons o rest ih =>
    have ho : 0 < o.period := hpos o (by simp)
    have ho0 : o.period ≠ 0 := ne_of_gt ho
    simp only [sumOfProduct, ho0, if_false, demandFrom, tdiv_eq_floor _ _ hT ho]
    by_cases hi : T.index = o.index
    · simp [hi]
    · simp only [hi, if_false]
      exact ih _ (fun x hx => hpos x (by simp [hx]))
/-! ## The members that `Start` never writes -/

theorem SameConfig.refl (s : Scheduler) : SameConfig s s :=
  ⟨rfl, rfl, rfl, rfl, rfl⟩

theorem SameConfig.trans {a b c : Scheduler} (h1 : SameConfig a b) (h2 : SameConfig b c) :
    SameConfig a c :=
  ⟨h2.1.trans h1.1, h2.2.1.trans h1.2.1, h2.2.2.1.trans h1.2.2.1,
    h2.2.2.2.1.trans h1.2.2.2.1, h2.2.2.2.2.trans h1.2.2.2.2⟩

theorem handle_finished_task_config {s s1 : Scheduler}
    (h : handle_finished_task s = .ok s1) : SameConfig s s1 := by
  unfold handle_finished_task at h
  split at h
  · simp at h
  · simp only [Except.ok.injEq] at h
    subst h
    split <;> exact ⟨rfl, rfl, rfl, rfl, rfl⟩

theorem handle_late_task_config {s s1 : Scheduler} {i : Int}
    (h : handle_late_task s i = .ok s1) : SameConfig s s1 := by
  unfold handle_late_task at h
  split at h
  · simp at h
  · split at h
    · simp at h
    · simp only [Except.ok.injEq] at h
      subst h
      split <;> exact ⟨rfl, rfl, rfl, rfl, rfl⟩

theorem chargeStep_config {s s1 : Scheduler} {e : ℚ}
    (h : chargeStep s e = .ok s1) : SameConfig s s1 := by
  unfold chargeStep at h
  split at h
  · split at h
    · simp at h
    · simp only [Except.ok.injEq] at h
      subst h
      exact ⟨rfl, rfl, rfl, rfl, rfl⟩
  · simp only [Except.ok.injEq] at h
    subst h
    exact SameConfig.refl _

theorem calculate_exec_time_config {s s1 : Scheduler} {e : ℚ}
    (h : calculate_exec_time s = .ok (s1, e)) : SameConfig s s1 := by
  unfold calculate_exec_time at h
  split at h
  · simp at h
  · rename_i t0 _
    simp only at h
    split at h
    · simp at h
    · split at h
      · simp at h
      · split at h
        · simp at h
        · rename_i sa ha
          have c1 := chargeStep_config ha
          split at h
          · simp at h
          · rename_i sb hb
            have c2 : SameConfig sa sb := by
              split at hb
              · exact handle_finished_task_config hb
              · simp only [Except.ok.injEq] at hb
                subst hb
                exact SameConfig.refl _
            split at h
            · simp at h
            · rename_i sc hc
              have c3 : SameConfig sb sc := by
                split at hc
                · exact handle_late_task_config hc
                · simp only [Except.ok.injEq] at hc
                  subst hc
                  exact SameConfig.refl _
              simp only [Except.ok.injEq, Prod.mk.injEq] at h
              obtain ⟨h, -⟩ := h
              subst h
              have c0 : SameConfig s { s with nextArriveTime := (t0.arrivalTime : ℚ) } :=
                ⟨rfl, rfl, rfl, rfl, rfl⟩
              exact c0.trans (c1.trans (c2.trans c3))

theorem Start_release_loop_config (fuel : Nat) {s s1 : Scheduler}
    (h : Start_release_loop fuel s = .ok s1) : SameConfig s s1 := by
  induction fuel generalizing s with
  | zero => simp [Start_release_loop] at h
  | succ n ih =>
    unfold Start_release_loop at h
    split at h
    · simp at h
    · split at h
      · have := ih h
        exact SameConfig.trans ⟨rfl, rfl, rfl, rfl, rfl⟩ this
      · simp only [Except.ok.injEq] at h
        subst h
        exact SameConfig.refl _

theorem Start_release_config (fuel : Nat) {s s1 : Scheduler}
    (h : Start_release fuel s = .ok s1) : SameConfig s s1 := by
  unfold Start_release at h
  split at h
  · exact Start_release_loop_config fuel h
  · simp only [Except.ok.injEq] at h
    subst h
    exact SameConfig.refl _

theorem Start_dispatch_config {s s1 : Scheduler}
    (h : Start_dispatch s = .ok s1) : SameConfig s s1 := by
  unfold Start_dispatch at h
  split at h
  · split at h
    · simp only [Except.ok.injEq] at h
      subst h
      exact SameConfig.refl _
    · split at h
      · simp at h
      · simp only [Except.ok.injEq] at h
        subst h
        exact ⟨rfl, rfl, rfl, rfl, rfl⟩
  · split at h
    · simp only [Except.ok.injEq] at h
      subst h
      exact SameConfig.refl _
    · split at h
      · split at h
        · simp only [Except.ok.injEq] at h
          subst h
          exact ⟨rfl, rfl, rfl, rfl, rfl⟩
        · simp only at h
          split at h
          · simp at h
          · split at h <;>
            · simp only [Except.ok.injEq] at h
              subst h
              exact ⟨rfl, rfl, rfl, rfl, rfl⟩
      · simp only [Except.ok.injEq] at h
        subst h
        exact SameConfig.refl _

theorem Start_advance_config (fuel : Nat) {s s1 : Scheduler}
    (h : Start_advance fuel s = .ok s1) : SameConfig s s1 := by
  unfold Start_advance at h
  simp only at h
  split at h
  · simp at h
  · rename_i s2 e he
    have c1 := calculate_exec_time_config he
    have c2 := Start_release_config fuel h
    have c0 : SameConfig s { s with
        upTimeSeries := s.upTimeSeries ++ [s.upTime]
        speedSeries := s.speedSeries ++ [s.currentSpeed] } := ⟨rfl, rfl, rfl, rfl, rfl⟩
    have c3 : SameConfig s2 { s2 with upTime := s2.upTime + e } := ⟨rfl, rfl, rfl, rfl, rfl⟩
    exact c0.trans (c1.trans (c3.trans c2))

theorem Start_body_config (fuel : Nat) {s s1 : Scheduler}
    (h : Start_body fuel s = .ok s1) : SameConfig s s1 := by
  unfold Start_body at h
  split at h
  · simp at h
  · rename_i s2 h2
    exact (Start_advance_config fuel h2).trans (Start_dispatch_config h)

theorem Start_config (fuel : Nat) {s s1 : Scheduler}
    (h : Start fuel s = .ok s1) : SameConfig s s1 := by
  induction fuel generalizing s with
  | zero =>
    unfold Start at h
    split at h
    · simp at h
    · simp only [Except.ok.injEq] at h
      subst h
      exact SameConfig.refl _
  | succ n ih =>
    unfold Start at h
    split at h
    · split at h
      · simp at h
      · rename_i s2 h2
        exact (Start_body_config n h2).trans (ih h)
    · simp only [Except.ok.injEq] at h
      subst h
      exact SameConfig.refl _
/-! ## The ceilings assigned by `InitResources` -/

theorem vecAt_mkResources (n k : Nat) (hk : k < n) :
    vecAt (mkResources n) k = .ok { index := (k : Int), ceiling := intMax } := by
  simp [vecAt, mkResources, List.getElem?_range hk]

theorem InitResources_tasks_spec (n : Nat) (ts : List Task) (r : Resource)
    (hb : ∀ t ∈ ts, t.resource < n) :
    ∃ c, InitResources_tasks (mkResources n) r ts = .ok { index := r.index, ceiling := c } ∧
      c ≤ r.ceiling ∧
      (∀ t ∈ ts, (t.resource : Int) = r.index → c ≤ t.period) ∧
      (c = r.ceiling ∨ ∃ t ∈ ts, (t.resource : Int) = r.index ∧ t.period = c) := by
  induction ts generalizing r with
  | nil => exact ⟨r.ceiling, rfl, le_refl _, by simp, Or.inl rfl⟩
  | cons t ts ih =>
    have hbt : ∀ x ∈ ts, x.resource < n := fun x hx => hb x (by simp [hx])
    have hv := vecAt_mkResources n t.resource (hb t (by simp))
    by_cases hc : (t.resource : Int) = r.index ∧ t.period < r.ceiling
    · obtain ⟨c, hrun, hle, hmin, hsrc⟩ := ih { r with ceiling := t.period } hbt
      refine ⟨c, ?_, ?_, ?_, ?_⟩
      · simp only [InitResources_tasks, hv, hc, and_self, if_true]
        exact hrun
      · exact le_trans hle (le_of_lt hc.2)
      · intro x hx hxr
        rcases List.mem_cons.mp hx with rfl | hx
        · exact hle
        · exact hmin x hx hxr
      · right
        rcases hsrc with h | ⟨x, hx, hxr, hxp⟩
        · exact ⟨t, by simp, hc.1, h.symm⟩
        · exact ⟨x, by simp [hx], hxr, hxp⟩
    · obtain ⟨c, hrun, hle, hmin, hsrc⟩ := ih r hbt
      refine ⟨c, ?_, hle, ?_, ?_⟩
      · simp only [InitResources_tasks, hv, hc, if_false]
        exact hrun
      · intro x hx hxr
        rcases List.mem_cons.mp hx with rfl | hx
        · have : ¬ x.period < r.ceiling := fun hlt => hc ⟨hxr, hlt⟩
          exact le_trans hle (not_lt.mp this)
        · exact hmin x hx hxr
      · rcases hsrc with h | ⟨x, hx, hxr, hxp⟩
        · exact Or.inl h
        · exact Or.inr ⟨x, by simp [hx], hxr, hxp⟩

/-- What `InitResources` leaves in a resource `r` for the task set `ts`: the
ceiling is at most the period of every task bound to `r`, and it is either the
sentinel or the period of a task bound to `r`. -/
theorem InitResources_loop_spec (n : Nat) (ts : List Task) (rs : List Resource)
    (hb : ∀ t ∈ ts, t.resource < n) (hc : ∀ r ∈ rs, r.ceiling = intMax) :
    ∃ rs1, InitResources_loop (mkResources n) ts rs = .ok rs1 ∧
      rs1.map Resource.index = rs.map Resource.index ∧
      ∀ r ∈ rs1, r.ceiling ≤ intMax ∧
        (∀ t ∈ ts, (t.resource : Int) = r.index → r.ceiling ≤ t.period) ∧
        (r.ceiling = intMax ∨ ∃ t ∈ ts, (t.resource : Int) = r.index ∧ t.period = r.ceiling) := by
  induction rs with
  | nil => exact ⟨[], rfl, rfl, by simp⟩
  | cons r rs ih =>
    obtain ⟨rs1, hrun, hidx, hprop⟩ := ih (fun x hx => hc x (by simp [hx]))
    obtain ⟨c, hr, hle, hmin, hsrc⟩ := InitResources_tasks_spec n ts r hb
    have hrc : r.ceiling = intMax := hc r (by simp)
    refine ⟨{ index := r.index, ceiling := c } :: rs1, ?_, ?_, ?_⟩
    · simp [InitResources_loop, hr, hrun]
    · simp [hidx]
    · intro x hx
      rcases List.mem_cons.mp hx with rfl | hx
      · exact ⟨hrc ▸ hle, hmin, hrc ▸ hsrc⟩
      · exact hprop x hx

theorem mkResources_ceiling (n : Nat) : ∀ r ∈ mkResources n, r.ceiling = intMax := by
  intro r hr
  simp only [mkResources, List.mem_map] at hr
  obtain ⟨i, -, rfl⟩ := hr
  rfl

theorem mkResources_index (n : Nat) :
    (mkResources n).map Resource.index = (List.range n).map fun (i : Nat) => (i : Int) := by
  simp [mkResources, Function.comp_def]

/-! ## `Init` reads the period, cost and resource of the tasks only -/

theorem InitResources_tasks_assignIndex (rl : List Resource) (r : Resource) (ts : List Task)
    (k : Nat) :
    InitResources_tasks rl r (assignIndex ts k) = InitResources_tasks rl r ts := by
  induction ts generalizing r k with
  | nil => rfl
  | cons t ts ih =>
    simp only [assignIndex, InitResources_tasks]
    cases vecAt rl t.resource with
    | error e => rfl
    | ok tr =>
      simp only
      split <;> exact ih _ _

theorem InitResources_loop_assignIndex (rl : List Resource) (rs : List Resource)
    (ts : List Task) (k : Nat) :
    InitResources_loop rl (assignIndex ts k) rs = InitResources_loop rl ts rs := by
  induction rs with
  | nil => rfl
  | cons r rs ih => simp only [InitResources_loop, InitResources_tasks_assignIndex, ih]

theorem sumUtilization_assignIndex (ts : List Task) (k : Nat) (acc : ℚ) :
    sumUtilization (assignIndex ts k) acc = sumUtilization ts acc := by
  induction ts generalizing k acc with
  | nil => rfl
  | cons t ts ih =>
    simp only [assignIndex, sumUtilization]
    split
    · rfl
    · exact ih _ _

theorem Init_eq (s : Scheduler) :
    Init s =
      match sumUtilization s.taskSet 0 with
      | .error e => .error e
      | .ok target =>
        match pickSpeed target s.cpuSpeedSet with
        | .error e => .error e
        | .ok low =>
          match InitResources_loop s.resourceList s.taskSet s.resourceList with
          | .error e => .error e
          | .ok rl =>
            .ok { s with
              taskSet := assignIndex s.taskSet 0
              initialTaskSet :=
                (assignIndex s.taskSet 0).insertionSort (fun a b => a.period ≤ b.period)
              LowSpeed := low
              currentSpeed := low
              resourceList := rl } := by
  simp only [Init, calculate_low_speed, SortTaskSet_byPeriod, sumUtilization_assignIndex]
  cases sumUtilization s.taskSet 0 with
  | error e => rfl
  | ok target =>
    simp only
    cases pickSpeed target s.cpuSpeedSet with
    | error e => rfl
    | ok low =>
      simp only [InitResources, InitResources_loop_assignIndex]
/-! ## One step of the loop in the simple situations -/

theorem get_wattage_congr (a b : Scheduler) (v : ℚ) (h : a.cpuSpeedSet = b.cpuSpeedSet) :
    get_wattage a v = get_wattage b v := by
  simp only [get_wattage, h]

theorem Start_dispatch_nothing (s : Scheduler) (hrun : s.runningTask = none)
    (hq : s.queue = []) : Start_dispatch s = .ok s := by
  simp only [Start_dispatch, hrun, hq]
/-! ## The single-task run -/

/-- C1: after `Init`, every resource `r` of `resourceList` with at least one task
bound to it has as ceiling the minimum period among the tasks bound to it, every
resource with no task bound to it still has the sentinel `intMax`, and `Start`
leaves `resourceList` (hence every ceiling) unchanged.  The scheduler is one the
constructor builds: the resources are `mkResources n` (position `i` has index `i`
and the sentinel ceiling) and every task points at one of them; periods are
non-zero `int` values (`Init` divides by them) and the speed table is not empty. -/
theorem C1_ceiling_is_min_period (s : Scheduler) (n : Nat)
    (hres : s.resourceList = mkResources n)
    (hbound : ∀ t ∈ s.taskSet, t.resource < n)
    (hper : ∀ t ∈ s.taskSet, t.period ≠ 0 ∧ t.period ≤ intMax)
    (hne : s.cpuSpeedSet ≠ []) :
    ∃ s1, Init s = .ok s1 ∧
      s1.resourceList.map Resource.index = (List.range n).map (fun (i : Nat) => (i : Int)) ∧
      (∀ r ∈ s1.resourceList,
        ((∃ t ∈ s.taskSet, (t.resource : Int) = r.index) →
          (∃ t ∈ s.taskSet, (t.resource : Int) = r.index ∧ t.period = r.ceiling) ∧
            ∀ t ∈ s.taskSet, (t.resource : Int) = r.index → r.ceiling ≤ t.period) ∧
        ((∀ t ∈ s.taskSet, (t.resource : Int) ≠ r.index) → r.ceiling = intMax)) ∧
      (∀ fuel s2, Start fuel s1 = .ok s2 → s2.resourceList = s1.resourceList) := by
  obtain ⟨low, hlow, -⟩ := pickSpeed_ok_of_ne_nil (utilization s.taskSet) s.cpuSpeedSet hne
  obtain ⟨rl, hrl, hidx, hprop⟩ :=
    InitResources_loop_spec n s.taskSet (mkResources n) hbound (mkResources_ceiling n)
  refine ⟨{ s with
      taskSet := assignIndex s.taskSet 0
      initialTaskSet := (assignIndex s.taskSet 0).insertionSort (fun a b => a.period ≤ b.period)
      LowSpeed := low
      currentSpeed := low
      resourceList := rl }, ?_, ?_, ?_, ?_⟩
  · rw [Init_eq, sumUtilization_eq s.taskSet 0 (fun t ht => (hper t ht).1), utilizationFrom_zero]
    simp only [zero_add, hlow, hres, hrl]
  · simp only [hidx, mkResources_index]
  · intro r hr
    obtain ⟨-, hmin, hsrc⟩ := hprop r hr
    constructor
    · rintro ⟨t, ht, htr⟩
      refine ⟨?_, hmin⟩
      rcases hsrc with h | h
      · refine ⟨t, ht, htr, ?_⟩
        have h1 := hmin t ht htr
        have h2 := (hper t ht).2
        rw [h] at h1 ⊢
        exact le_antisymm h2 h1
      · exact h
    · intro hnone
      rcases hsrc with h | ⟨t, ht, htr, -⟩
      · exact h
      · exact absurd htr (hnone t ht)
  · intro fuel s2 h2
    exact (Start_config fuel h2).1

/-- C1 at an example with three resources: the ceilings after `Init` are 20, 5 and
the sentinel. -/
theorem C1_ceiling_is_min_period_witness :
    ((Init examplePreempt).toOption.map fun s => s.resourceList) =
      some [{ index := 0, ceiling := 20 }, { index := 1, ceiling := 5 },
        { index := 2, ceiling := intMax }] ∧
    ∃ s1, Init examplePreempt = .ok s1 ∧
      s1.resourceList.map Resource.index = (List.range 3).map (fun (i : Nat) => (i : Int)) ∧
      (∀ r ∈ s1.resourceList,
        ((∃ t ∈ examplePreempt.taskSet, (t.resource : Int) = r.index) →
          (∃ t ∈ examplePreempt.taskSet, (t.resource : Int) = r.index ∧ t.period = r.ceiling) ∧
            ∀ t ∈ examplePreempt.taskSet, (t.resource : Int) = r.index → r.ceiling ≤ t.period) ∧
        ((∀ t ∈ examplePreempt.taskSet, (t.resource : Int) ≠ r.index) → r.ceiling = intMax)) ∧
      (∀ fuel s2, Start fuel s1 = .ok s2 → s2.resourceList = s1.resourceList) :=
  ⟨by decide!,
    C1_ceiling_is_min_period examplePreempt 3 rfl (by decide!) (by decide!) (by decide!)⟩
/-! ## Claims about the speed selection -/

/-- C2 (as amended): for a task set whose periods are all positive and a non-empty
ascending speed table, `calculate_low_speed` returns a speed of the table; with `U`
the utilisation `Σ wcc_i / period_i` accumulated in `float` arithmetic, when some
speed is at least `U` it is the smallest such speed, and when `U` is above every
speed it is the largest speed of the table. -/
theorem C2_calculate_low_speed (s : Scheduler)
    (hper : ∀ t ∈ s.taskSet, 0 < t.period)
    (hne : s.cpuSpeedSet ≠ [])
    (hs : s.cpuSpeedSet.Sorted (· ≤ ·)) :
    ∃ v, calculate_low_speed s = .ok v ∧ v ∈ s.cpuSpeedSet ∧
      ((∃ x ∈ s.cpuSpeedSet, utilization s.taskSet ≤ x) →
        utilization s.taskSet ≤ v ∧
          ∀ x ∈ s.cpuSpeedSet, utilization s.taskSet ≤ x → v ≤ x) ∧
      ((∀ x ∈ s.cpuSpeedSet, x < utilization s.taskSet) →
        v = s.cpuSpeedSet.getLast hne ∧ ∀ x ∈ s.cpuSpeedSet, x ≤ v) := by
  rw [calculate_low_speed_eq s (fun t ht => ne_of_gt (hper t ht))]
  obtain ⟨v, hv, ⟨hmem, hfirst, hlast⟩, hgl⟩ :=
    pickSpeed_spec (utilization s.taskSet) s.cpuSpeedSet hne hs
  exact ⟨v, hv, hmem, hfirst, fun hall => ⟨hgl hall, hlast hall⟩⟩

/-- C2 (as amended) at the two examples of the specification, over the floats
`0.4, 0.6, 0.8, 1.0`: the costs 3 and 6 over the periods 10 and 20 give the float
utilisation `0.6` and select `0.6`; the costs 8 and 10 give `1.3` and select the
largest speed `1.0`. -/
theorem C2_calculate_low_speed_witness :
    (utilization exampleUtil06.taskSet = f32 (3/5) ∧
      calculate_low_speed exampleUtil06 = .ok (f32 (3/5)) ∧
      utilization exampleUtil13.taskSet = f32 (13/10) ∧
      calculate_low_speed exampleUtil13 = .ok 1) ∧
    ∃ v, calculate_low_speed exampleUtil06 = .ok v ∧ v ∈ exampleUtil06.cpuSpeedSet ∧
      ((∃ x ∈ exampleUtil06.cpuSpeedSet, utilization exampleUtil06.taskSet ≤ x) →
        utilization exampleUtil06.taskSet ≤ v ∧
          ∀ x ∈ exampleUtil06.cpuSpeedSet, utilization exampleUtil06.taskSet ≤ x → v ≤ x) ∧
      ((∀ x ∈ exampleUtil06.cpuSpeedSet, x < utilization exampleUtil06.taskSet) →
        v = exampleUtil06.cpuSpeedSet.getLast (by decide!) ∧
          ∀ x ∈ exampleUtil06.cpuSpeedSet, x ≤ v) :=
  ⟨by decide!, C2_calculate_low_speed exampleUtil06 (by decide!) (by decide!) (by decide!)⟩

/-- C2 as stated fails.  The costs 2 and 4 over the period 15 have the utilisation
`2/15 + 4/15 = 0.4` in real arithmetic, and the float `0.4` of the table is the
smallest speed that is at least `0.4`.  In `float` arithmetic both quotients and
their sum round upwards, the accumulated target is the float next above the float
`0.4`, and `calculate_low_speed` returns the float `0.6`. -/
theorem C2_counterexample :
    exactUtilization exampleRounding.taskSet = 2 / 5 ∧
    f32 (2/5) ∈ exampleRounding.cpuSpeedSet ∧
    exactUtilization exampleRounding.taskSet ≤ f32 (2/5) ∧
    (∀ x ∈ exampleRounding.cpuSpeedSet,
      exactUtilization exampleRounding.taskSet ≤ x → f32 (2/5) ≤ x) ∧
    utilization exampleRounding.taskSet = f32 (2/5) + 1 / 2 ^ 25 ∧
    calculate_low_speed exampleRounding = .ok (f32 (3/5)) ∧
    f32 (2/5) < f32 (3/5) := by
  decide!

/-- C3 (as amended): with a running task `R`, a positive current speed, positive
periods in the stored initial task set and a non-empty ascending speed table,
`calculate_high_speed T` for a task `T` of positive period returns the smallest
speed that is at least the target, or the largest speed of the table when the
target exceeds all of them.  The target is `(B + S) / T.period` in `float`
arithmetic, where `B = R.rc / currentSpeed` and `S` adds
`⌊T.period / o.period⌋ * o.wcc` over the initial task set from its first element up
to and including the one whose index is `T.index`. -/
theorem C3_calculate_high_speed (s : Scheduler) (T R : Task)
    (hrun : s.runningTask = some R)
    (hT : 0 < T.period)
    (hcur : 0 < s.currentSpeed)
    (hper : ∀ o ∈ s.initialTaskSet, 0 < o.period)
    (hne : s.cpuSpeedSet ≠ [])
    (hs : s.cpuSpeedSet.Sorted (· ≤ ·)) :
    ∃ v, calculate_high_speed s T = .ok v ∧ v ∈ s.cpuSpeedSet ∧
      ((∃ x ∈ s.cpuSpeedSet, highTarget s T R ≤ x) →
        highTarget s T R ≤ v ∧ ∀ x ∈ s.cpuSpeedSet, highTarget s T R ≤ x → v ≤ x) ∧
      ((∀ x ∈ s.cpuSpeedSet, x < highTarget s T R) →
        v = s.cpuSpeedSet.getLast hne ∧ ∀ x ∈ s.cpuSpeedSet, x ≤ v) := by
  obtain ⟨v, hv, ⟨hmem, hfirst, hlast⟩, hgl⟩ :=
    pickSpeed_spec (highTarget s T R) s.cpuSpeedSet hne hs
  refine ⟨v, ?_, hmem, hfirst, fun hall => ⟨hgl hall, hlast hall⟩⟩
  have h1 : s.currentSpeed ≠ 0 := ne_of_gt hcur
  have h2 : T.period ≠ 0 := ne_of_gt hT
  simp only [calculate_high_speed, hrun, h1, h2, if_false,
    sumOfProduct_eq T s.initialTaskSet 0 hT.le hper]
  exact hv

/-- C3 (as amended) at an example: `B = 0.1 / 0.5`, `S = ⌊5/5⌋ * 1`, the target is
the float `0.24000001`, and the smallest speed of `0.1, 0.5, 0.6, 0.7, 0.8, 1.0` that is at
least the target is `0.5`. -/
theorem C3_calculate_high_speed_witness :
    (highTarget exampleHigh { newTask 1 5 1 0 with index := 1 }
        { newTask 0 20 (f32 (3/5)) 0 with rc := f32 (1/10) } = 1006633 / 4194304 ∧
      calculate_high_speed exampleHigh { newTask 1 5 1 0 with index := 1 } = .ok (1/2)) ∧
    ∃ v, calculate_high_speed exampleHigh { newTask 1 5 1 0 with index := 1 } = .ok v ∧
      v ∈ exampleHigh.cpuSpeedSet ∧
      ((∃ x ∈ exampleHigh.cpuSpeedSet,
          highTarget exampleHigh { newTask 1 5 1 0 with index := 1 }
            { newTask 0 20 (f32 (3/5)) 0 with rc := f32 (1/10) } ≤ x) →
        highTarget exampleHigh { newTask 1 5 1 0 with index := 1 }
            { newTask 0 20 (f32 (3/5)) 0 with rc := f32 (1/10) } ≤ v ∧
          ∀ x ∈ exampleHigh.cpuSpeedSet,
            highTarget exampleHigh { newTask 1 5 1 0 with index := 1 }
              { newTask 0 20 (f32 (3/5)) 0 with rc := f32 (1/10) } ≤ x → v ≤ x) ∧
      ((∀ x ∈ exampleHigh.cpuSpeedSet,
          x < highTarget exampleHigh { newTask 1 5 1 0 with index := 1 }
            { newTask 0 20 (f32 (3/5)) 0 with rc := f32 (1/10) }) →
        v = exampleHigh.cpuSpeedSet.getLast (by decide!) ∧
          ∀ x ∈ exampleHigh.cpuSpeedSet, x ≤ v) :=
  ⟨by decide!,
    C3_calculate_high_speed exampleHigh { newTask 1 5 1 0 with index := 1 }
      { newTask 0 20 (f32 (3/5)) 0 with rc := f32 (1/10) } rfl (by decide!) (by decide!)
      (by decide!) (by decide!) (by decide!)⟩

/-- C3 as stated fails.  `R` has `rc` the float `0.6` and runs at the float `0.2`;
`T` has period 10 and cost 1 and is the first element of the initial task set.  In
real arithmetic the target `(0.6 / 0.2 + 1) / 10` of these floats is above the float
`0.4`, so the smallest speed that is at least the target is `0.6`.  In `float`
arithmetic `B` rounds to 3, the target to the float `0.4`, and
`calculate_high_speed` returns `0.4`. -/
theorem C3_counterexample :
    exampleHighRounding.runningTask = some { newTask 0 30 3 0 with rc := f32 (3/5) } ∧
    f32 (2/5) < exactHighTarget exampleHighRounding { newTask 1 10 1 0 with index := 1 }
      { newTask 0 30 3 0 with rc := f32 (3/5) } ∧
    exactHighTarget exampleHighRounding { newTask 1 10 1 0 with index := 1 }
      { newTask 0 30 3 0 with rc := f32 (3/5) } ≤ f32 (3/5) ∧
    (∀ x ∈ exampleHighRounding.cpuSpeedSet,
      exactHighTarget exampleHighRounding { newTask 1 10 1 0 with index := 1 }
        { newTask 0 30 3 0 with rc := f32 (3/5) } ≤ x → f32 (3/5) ≤ x) ∧
    highTarget exampleHighRounding { newTask 1 10 1 0 with index := 1 }
      { newTask 0 30 3 0 with rc := f32 (3/5) } = f32 (2/5) ∧
    calculate_high_speed exampleHighRounding { newTask 1 10 1 0 with index := 1 } =
      .ok (f32 (2/5)) := by
  decide!
/-! ## Claims about the dispatch / preemption decision -/

theorem Start_dispatch_preempt (s : Scheduler) (R H : Task) (rest : List Task)
    (hrun : s.runningTask = some R) (hq : s.queue = H :: rest)
    (hlt : H.period < R.period) (hceil : H.period < s.systemCeiling) :
    Start_dispatch s =
      .ok (SortQueue { s with runningTask := some H, queue := rest ++ [R] }) := by
  simp only [Start_dispatch, hrun, hq, hlt, hceil, if_true]

theorem calculate_high_speed_congr (a b : Scheduler) (T U : Task)
    (h1 : a.runningTask = b.runningTask) (h2 : a.currentSpeed = b.currentSpeed)
    (h3 : a.initialTaskSet = b.initialTaskSet) (h4 : a.cpuSpeedSet = b.cpuSpeedSet)
    (h5 : T.period = U.period) (h6 : T.index = U.index) :
    calculate_high_speed a T = calculate_high_speed b U := by
  simp only [calculate_high_speed, h1, h2, h3, h4, h5, h6]

theorem Start_dispatch_block (s : Scheduler) (R H : Task) (rest : List Task) (v : ℚ)
    (hrun : s.runningTask = some R) (hq : s.queue = H :: rest)
    (hlt : H.period < R.period) (hceil : s.systemCeiling ≤ H.period)
    (hv : calculate_high_speed s H = .ok v) :
    Start_dispatch s =
      .ok { s with
        queue := { H with blocked := true } :: rest
        currentSpeed := max s.currentSpeed v } := by
  have hc : ¬ H.period < s.systemCeiling := not_lt.mpr hceil
  have hh : ∀ q : List Task,
      calculate_high_speed { s with queue := q, runningTask := some R }
        { H with blocked := true } = .ok v := by
    intro q
    rw [← hv]
    exact calculate_high_speed_congr _ _ _ _ hrun.symm rfl rfl rfl rfl rfl
  simp only [Start_dispatch, hrun, hq, hlt, hc, if_true, if_false, hh]
  by_cases hgt : v > s.currentSpeed
  · simp only [hgt, if_true, max_eq_right (le_of_lt hgt), hrun]
  · simp only [hgt, if_false, max_eq_left (not_lt.mp hgt), hrun]

/-- C4 fails in the run of `exampleStale`.  At the decision of the third iteration
a task is running, the queue is `[Y, X]`, and the period 10 of its head `Y` is below
`systemCeiling = 20`; the decision leaves the state as it is, so `Y` is not running
afterwards.  The record read through `runningTask` is the copy of `X` that the
release loop has just written (period 10, bound to resource 1, whose ceiling is
10), and `systemCeiling` is still the ceiling of the resource of `L`, dispatched in
the first iteration. -/
theorem C4_no_preemption_under_stale_ceiling :
    exampleStaleRun = .ok exampleStaleState ∧
    exampleStaleState.runningTask =
      some { index := 2, arrivalTime := 2, period := 10, wcc := 1, rc := 1, resource := 1,
             blocked := false, burstTime := 0 } ∧
    exampleStaleState.queue =
      [{ index := 1, arrivalTime := 1, period := 10, wcc := 1, rc := 1, resource := 1,
         blocked := false, burstTime := 0 },
       { index := 2, arrivalTime := 2, period := 10, wcc := 1, rc := 1, resource := 1,
         blocked := false, burstTime := 0 }] ∧
    exampleStaleState.resourceList =
      [{ index := 0, ceiling := 20 }, { index := 1, ceiling := 10 }] ∧
    exampleStaleState.systemCeiling = 20 ∧
    Start_dispatch exampleStaleState = .ok exampleStaleState := by
  decide!

/-- C5: at the decision, if `R` is running and the queue head `H` has a period
strictly smaller than the period of `R` but not below `systemCeiling`, then `R` is
still the running task afterwards, `H` is still at the head of the queue and
flagged blocked, and `currentSpeed` is the maximum of its former value and
`calculate_high_speed H`, hence not lower than before. -/
theorem C5_blocked_raises_speed (s : Scheduler) (R H : Task) (rest : List Task) (v : ℚ)
    (hrun : s.runningTask = some R) (hq : s.queue = H :: rest)
    (hlt : H.period < R.period) (hceil : s.systemCeiling ≤ H.period)
    (hv : calculate_high_speed s H = .ok v) :
    ∃ s1, Start_dispatch s = .ok s1 ∧ s1.runningTask = some R ∧
      s1.queue = { H with blocked := true } :: rest ∧
      s1.currentSpeed = max s.currentSpeed v ∧ s.currentSpeed ≤ s1.currentSpeed :=
  ⟨_, Start_dispatch_block s R H rest v hrun hq hlt hceil hv, hrun, rfl, rfl,
    le_max_left _ _⟩

/-- C5 at an example: `H` is flagged, `L` keeps running and the speed rises from
`1/2` to `calculate_high_speed H = 1`. -/
theorem C5_blocked_raises_speed_witness :
    ∃ s1, Start_dispatch exampleDecisionBlock = .ok s1 ∧
      s1.runningTask = some { newTask 0 20 4 0 with rc := 2 } ∧
      s1.queue = { ({ newTask 1 5 1 0 with index := 1 } : Task) with blocked := true } :: [] ∧
      s1.currentSpeed = max exampleDecisionBlock.currentSpeed 1 ∧
      exampleDecisionBlock.currentSpeed ≤ s1.currentSpeed :=
  C5_blocked_raises_speed exampleDecisionBlock { newTask 0 20 4 0 with rc := 2 }
    { newTask 1 5 1 0 with index := 1 } [] 1 rfl rfl (by decide!) (by decide!) (by decide!)
/-! ## Claims about the counters -/

theorem chargeStep_running {s sa : Scheduler} {e : ℚ} {R : Task}
    (h : chargeStep s e = .ok sa) (hR : s.runningTask = some R) :
    ∃ R1, sa.runningTask = some R1 ∧ R1.blocked = R.blocked := by
  simp only [chargeStep, hR] at h
  split at h
  · simp at h
  · simp only [Except.ok.injEq] at h
    subst h
    exact ⟨_, rfl, rfl⟩

theorem handle_finished_task_blocked {s s1 : Scheduler} {R : Task}
    (h : handle_finished_task s = .ok s1) (hR : s.runningTask = some R)
    (hb : R.blocked = true) :
    s1.runningTask = none ∧ s1.currentSpeed = s.LowSpeed := by
  simp only [handle_finished_task, hR, hb, if_true, Except.ok.injEq] at h
  subst h
  exact ⟨rfl, rfl⟩

theorem handle_late_task_speed {s s1 : Scheduler} {i : Int}
    (h : handle_late_task s i = .ok s1) :
    s1.runningTask = s.runningTask ∧
      (s1.currentSpeed = s.currentSpeed ∨ s1.currentSpeed = s.LowSpeed) := by
  unfold handle_late_task at h
  split at h
  · simp at h
  · split at h
    · simp at h
    · simp only [Except.ok.injEq] at h
      subst h
      split
      · exact ⟨rfl, Or.inr rfl⟩
      · exact ⟨rfl, Or.inl rfl⟩

theorem calculate_exec_time_blocked_finish (s s1 : Scheduler) (R : Task) (e : ℚ)
    (hR : s.runningTask = some R) (hb : R.blocked = true)
    (h : calculate_exec_time s = .ok (s1, e)) (he : e = R.rc / s.currentSpeed) :
    s1.runningTask = none ∧ s1.currentSpeed = s1.LowSpeed := by
  have hcfg := calculate_exec_time_config h
  unfold calculate_exec_time at h
  split at h
  · simp at h
  · rename_i t0 _
    simp only at h
    split at h
    · simp at h
    · rename_i ef hef
      split at h
      · simp at h
      · split at h
        · simp at h
        · rename_i sa ha
          obtain ⟨R1, hR1, hb1⟩ := chargeStep_running ha hR
          have ca := chargeStep_config ha
          split at h
          · simp at h
          · rename_i sb hb2
            split at h
            · simp at h
            · rename_i sc hc
              simp only [Except.ok.injEq, Prod.mk.injEq] at h
              obtain ⟨h1, h2⟩ := h
              rw [← h1]
              have hef2 : ef = R.rc / s.currentSpeed := by
                simp only [execTime_finish, hR] at hef
                split at hef
                · simp at hef
                · simp only [Except.ok.injEq] at hef
                  exact hef.symm
              rw [← hef2, ← h2] at he
              rw [if_pos he] at hb2
              obtain ⟨hn, hsp⟩ := handle_finished_task_blocked hb2 hR1 (hb1.trans hb)
              have hlow : sb.LowSpeed = sa.LowSpeed := (handle_finished_task_config hb2).2.2.1
              split at hc
              · obtain ⟨hrun, hcur⟩ := handle_late_task_speed hc
                have hlow2 : sc.LowSpeed = sb.LowSpeed := (handle_late_task_config hc).2.2.1
                refine ⟨hrun.trans hn, ?_⟩
                rcases hcur with hcur | hcur
                · rw [hcur, hsp, hlow2, hlow]
                · rw [hcur, hlow2]
              · simp only [Except.ok.injEq] at hc
                subst hc
                exact ⟨hn, hsp.trans hlow.symm⟩

/-- C8 fails in the run of `exampleBoost`, whose two tasks `L` (period 20, released
at 0) and `H` (period 5, released at 1) share the only resource.  After the first
iteration `L` is the running task, at speed `1/2 = LowSpeed`, under the system
ceiling 5.  The second iteration releases `H` at time 1: the release loop writes the
record of `H` into the storage that `runningTask` points to, so the decision
compares the head `H` with a running record of period 5, and `5 < 5` fails.  After
the step `H` is in the queue without the flag, the record read through
`runningTask` is the copy of `H`, and `currentSpeed` is `1/2` as before. -/
theorem C8_release_overwrites_running :
    (match Init exampleBoost with
      | .error e => .error e
      | .ok s0 => Start_steps 4 2 s0) = Except.ok (exampleBoostState 2) ∧
    ((exampleBoostState 1).upTime, (exampleBoostState 1).currentSpeed,
      (exampleBoostState 1).LowSpeed, (exampleBoostState 1).systemCeiling) =
      (0, 1/2, 1/2, 5) ∧
    (exampleBoostState 1).runningTask =
      some { index := 0, arrivalTime := 0, period := 20, wcc := 4, rc := 4, resource := 0,
             blocked := false, burstTime := 0 } ∧
    (exampleBoostState 1).queue = [] ∧
    ((exampleBoostState 2).upTime, (exampleBoostState 2).currentSpeed,
      (exampleBoostState 2).LowSpeed, (exampleBoostState 2).systemCeiling) =
      (1, 1/2, 1/2, 5) ∧
    (exampleBoostState 2).queue =
      [{ index := 1, arrivalTime := 1, period := 5, wcc := 1, rc := 1, resource := 0,
         blocked := false, burstTime := 0 }] ∧
    (exampleBoostState 2).runningTask =
      some { index := 1, arrivalTime := 1, period := 5, wcc := 1, rc := 1, resource := 0,
             blocked := false, burstTime := 0 } := by
  decide!
/-! ## Claims about invalid configurations -/

theorem Init_LowSpeed {s s1 : Scheduler} (h : Init s = .ok s1) :
    calculate_low_speed s = .ok s1.LowSpeed ∧ s1.currentSpeed = s1.LowSpeed := by
  rw [Init_eq] at h
  unfold calculate_low_speed
  split at h
  · simp at h
  · rename_i target ht
    split at h
    · simp at h
    · rename_i low hl
      split at h
      · simp at h
      · simp only [Except.ok.injEq] at h
        subst h
        simp [ht, hl]

/-- C9 (as amended): an infeasible configuration is clamped, not reported.  For a
task set with positive periods whose utilisation exceeds every speed of a
non-empty ascending table, `calculate_low_speed` returns the largest speed as an
ordinary result; a feasible task set over the same table whose utilisation selects
the largest speed gets the very same result; and `Init`, when it completes, stores
that speed in `LowSpeed` and `currentSpeed`. -/
theorem C9_infeasible_is_clamped (s : Scheduler)
    (hper : ∀ t ∈ s.taskSet, 0 < t.period)
    (hne : s.cpuSpeedSet ≠ [])
    (hs : s.cpuSpeedSet.Sorted (· ≤ ·))
    (hinf : ∀ x ∈ s.cpuSpeedSet, x < utilization s.taskSet) :
    calculate_low_speed s = .ok (s.cpuSpeedSet.getLast hne) ∧
    (∀ f : Scheduler, f.cpuSpeedSet = s.cpuSpeedSet → (∀ t ∈ f.taskSet, 0 < t.period) →
      utilization f.taskSet ≤ s.cpuSpeedSet.getLast hne →
      (∀ x ∈ s.cpuSpeedSet, utilization f.taskSet ≤ x → s.cpuSpeedSet.getLast hne ≤ x) →
      calculate_low_speed f = calculate_low_speed s) ∧
    (∀ s1, Init s = .ok s1 →
      s1.LowSpeed = s.cpuSpeedSet.getLast hne ∧ s1.currentSpeed = s.cpuSpeedSet.getLast hne) := by
  have hlow : calculate_low_speed s = .ok (s.cpuSpeedSet.getLast hne) := by
    rw [calculate_low_speed_eq s (fun t ht => ne_of_gt (hper t ht))]
    obtain ⟨v, hv, -, hgl⟩ := pickSpeed_spec (utilization s.taskSet) s.cpuSpeedSet hne hs
    rw [hv, hgl hinf]
  refine ⟨hlow, ?_, ?_⟩
  · intro f hf hfper hfle hfmin
    rw [hlow, calculate_low_speed_eq f (fun t ht => ne_of_gt (hfper t ht)), hf]
    obtain ⟨v, hv, ⟨hmem, hfirst, -⟩, -⟩ :=
      pickSpeed_spec (utilization f.taskSet) s.cpuSpeedSet hne hs
    rw [hv]
    obtain ⟨-, hmin⟩ := hfirst ⟨_, List.getLast_mem hne, hfle⟩
    have h1 := hmin _ (List.getLast_mem hne) hfle
    have h2 := hfmin v hmem (hfirst ⟨_, List.getLast_mem hne, hfle⟩).1
    rw [le_antisymm h1 h2]
  · intro s1 h1
    obtain ⟨hl, hc⟩ := Init_LowSpeed h1
    rw [hlow] at hl
    simp only [Except.ok.injEq] at hl
    exact ⟨hl.symm, hc.trans hl.symm⟩

/-- C9 (as amended) at the example of utilisation `1.3`. -/
theorem C9_infeasible_is_clamped_witness :
    calculate_low_speed exampleUtil13 = .ok (exampleUtil13.cpuSpeedSet.getLast (by decide!)) ∧
    (∀ f : Scheduler, f.cpuSpeedSet = exampleUtil13.cpuSpeedSet →
      (∀ t ∈ f.taskSet, 0 < t.period) →
      utilization f.taskSet ≤ exampleUtil13.cpuSpeedSet.getLast (by decide!) →
      (∀ x ∈ exampleUtil13.cpuSpeedSet, utilization f.taskSet ≤ x →
        exampleUtil13.cpuSpeedSet.getLast (by decide!) ≤ x) →
      calculate_low_speed f = calculate_low_speed exampleUtil13) ∧
    (∀ s1, Init exampleUtil13 = .ok s1 →
      s1.LowSpeed = exampleUtil13.cpuSpeedSet.getLast (by decide!) ∧
        s1.currentSpeed = exampleUtil13.cpuSpeedSet.getLast (by decide!)) :=
  C9_infeasible_is_clamped exampleUtil13 (by decide!) (by decide!) (by decide!) (by decide!)

/-- C9 as stated fails: the infeasible task set of utilisation `1.3` and the feasible
task set of utilisation `1.0` both make `calculate_low_speed` return `1.0`, and the
two outcomes of `Init` agree on every member other than the task records: nothing
tells the clamped result from the feasible one. -/
theorem C9_counterexample :
    (∀ x ∈ exampleUtil13.cpuSpeedSet, x < utilization exampleUtil13.taskSet) ∧
    (∃ x ∈ exampleUtil10.cpuSpeedSet, utilization exampleUtil10.taskSet ≤ x) ∧
    calculate_low_speed exampleUtil13 = .ok 1 ∧
    calculate_low_speed exampleUtil10 = .ok 1 ∧
    (∃ a b, Init exampleUtil13 = .ok a ∧ Init exampleUtil10 = .ok b ∧
      withoutTasks a = withoutTasks b) := by
  refine ⟨by decide!, ⟨1, by decide!, by decide!⟩, by decide!, by decide!,
    stateOr exampleUtil13 (Init exampleUtil13), stateOr exampleUtil10 (Init exampleUtil10),
    by decide!, by decide!, by decide!⟩

theorem sumUtilization_zero_period (ts : List Task) (acc : ℚ)
    (h : ∃ t ∈ ts, t.period = 0) : sumUtilization ts acc = .error .divByZero := by
  induction ts generalizing acc with
  | nil => simp at h
  | cons t ts ih =>
    by_cases h0 : t.period = 0
    · simp [sumUtilization, h0]
    · obtain ⟨x, hx, hx0⟩ := h
      rcases List.mem_cons.mp hx with rfl | hx
      · exact absurd hx0 h0
      · simp only [sumUtilization, h0, if_false]
        exact ih _ ⟨x, hx, hx0⟩

theorem InitResources_loop_no_tasks (rl rs : List Resource) :
    InitResources_loop rl [] rs = .ok rs := by
  induction rs with
  | nil => rfl
  | cons r rs ih => simp [InitResources_loop, InitResources_tasks, ih]

theorem Start_body_no_tasks (fuel : Nat) (s : Scheduler) (h : s.taskSet = []) :
    Start_body fuel s = .error .outOfBounds := by
  simp [Start_body, Start_advance, calculate_exec_time, vecAt, h]

theorem Start_no_tasks (fuel : Nat) (s : Scheduler) (h : s.taskSet = [])
    (hup : s.upTime < s.duration) : Start (fuel + 1) s = .error .outOfBounds := by
  simp only [Start, hup, if_true, Start_body_no_tasks fuel s h]

/-- C10 (as amended): degenerate configurations are not rejected.  With an empty
task set and a non-empty speed table `Init` completes normally, whatever the
resources are, leaving a speed of the table in `LowSpeed` and `currentSpeed`; the
first iteration of `Start` then reads `taskSet[0]` of the empty task set.  With a
task of period 0 in the task set `calculate_low_speed` divides by that period. -/
theorem C10_degenerate_not_rejected (s : Scheduler) :
    (s.taskSet = [] → s.cpuSpeedSet ≠ [] →
      ∃ s1, Init s = .ok s1 ∧ s1.taskSet = [] ∧ s1.resourceList = s.resourceList ∧
        s1.LowSpeed ∈ s.cpuSpeedSet ∧ s1.currentSpeed = s1.LowSpeed ∧
        (∀ fuel, Start_body fuel s1 = .error .outOfBounds) ∧
        (s1.upTime < s1.duration → ∀ fuel, Start (fuel + 1) s1 = .error .outOfBounds)) ∧
    ((∃ t ∈ s.taskSet, t.period = 0) →
      calculate_low_speed s = .error .divByZero ∧ Init s = .error .divByZero) := by
  constructor
  · intro ht hne
    obtain ⟨low, hlow, hmem⟩ := pickSpeed_ok_of_ne_nil 0 s.cpuSpeedSet hne
    refine ⟨{ s with
        taskSet := []
        initialTaskSet := []
        LowSpeed := low
        currentSpeed := low }, ?_, rfl, rfl, hmem, rfl, ?_, ?_⟩
    · rw [Init_eq]
      simp only [ht, sumUtilization, hlow, InitResources_loop_no_tasks, assignIndex,
        List.insertionSort]
    · intro fuel
      exact Start_body_no_tasks fuel _ rfl
    · intro hup fuel
      exact Start_no_tasks fuel _ rfl hup
  · intro h0
    have h1 : sumUtilization s.taskSet 0 = .error .divByZero :=
      sumUtilization_zero_period s.taskSet 0 h0
    constructor
    · simp only [calculate_low_speed, h1]
    · rw [Init_eq]
      simp only [h1]

/-- C10 (as amended) at the two examples: no task and no resource, and a task of
period 0. -/
theorem C10_degenerate_not_rejected_witness :
    (∃ s1, Init exampleNoTasks = .ok s1 ∧ s1.taskSet = [] ∧
        s1.resourceList = exampleNoTasks.resourceList ∧
        s1.LowSpeed ∈ exampleNoTasks.cpuSpeedSet ∧ s1.currentSpeed = s1.LowSpeed ∧
        (∀ fuel, Start_body fuel s1 = .error .outOfBounds) ∧
        (s1.upTime < s1.duration → ∀ fuel, Start (fuel + 1) s1 = .error .outOfBounds)) ∧
    (calculate_low_speed exampleZeroPeriod = .error .divByZero ∧
      Init exampleZeroPeriod = .error .divByZero) :=
  ⟨(C10_degenerate_not_rejected exampleNoTasks).1 (by decide!) (by decide!),
    (C10_degenerate_not_rejected exampleZeroPeriod).2 ⟨newTask 0 0 1 0, by decide!, by decide!⟩⟩

/-- C10 as stated fails: for the configuration with no task and no resource `Init`
returns normally (low speed the float `0.1`), the loop condition of `Start` holds, and the
first iteration reads `taskSet[0]` of the empty task set; for the configuration
with a task of period 0, `calculate_low_speed` divides by zero inside `Init`. -/
theorem C10_counterexample :
    Init exampleNoTasks =
      .ok { exampleNoTasks with LowSpeed := f32 (1/10), currentSpeed := f32 (1/10) } ∧
    exampleNoTasks.upTime < exampleNoTasks.duration ∧
    Start_body 4 { exampleNoTasks with LowSpeed := f32 (1/10), currentSpeed := f32 (1/10) } =
      .error .outOfBounds ∧
    Start 4 { exampleNoTasks with LowSpeed := f32 (1/10), currentSpeed := f32 (1/10) } =
      .error .outOfBounds ∧
    calculate_low_speed exampleZeroPeriod = .error .divByZero ∧
    Init exampleZeroPeriod = .error .divByZero := by
  decide!
/-! ## What each part of an iteration does to the state -/

theorem chargeStep_ok {s sa : Scheduler} {e : ℚ} (h : chargeStep s e = .ok sa) :
    ∃ pc, sa = { s with
      runningTask := s.runningTask.map fun r => { r with
        burstTime := r.burstTime + e
        rc := r.rc - s.currentSpeed * e }
      totalPC := pc } := by
  unfold chargeStep at h
  split at h
  · rename_i r hr
    split at h
    · simp at h
    · rename_i W hW
      simp only [Except.ok.injEq] at h
      subst h
      exact ⟨s.totalPC + e * W, by simp [hr]⟩
  · rename_i hr
    simp only [Except.ok.injEq] at h
    subst h
    refine ⟨s.totalPC, ?_⟩
    cases s
    simp only at hr
    simp [hr]

theorem handle_finished_task_ok {s sb : Scheduler} (h : handle_finished_task s = .ok sb) :
    ∃ r, s.runningTask = some r ∧
      sb = { s with
        currentSpeed := if r.blocked then s.LowSpeed else s.currentSpeed
        totalTaskFinished := s.totalTaskFinished + 1
        runningTask := none
        systemCeiling := intMax } := by
  unfold handle_finished_task at h
  split at h
  · simp at h
  · rename_i r hr
    simp only [Except.ok.injEq] at h
    subst h
    refine ⟨r, hr, ?_⟩
    by_cases hb : r.blocked = true <;> simp [hb]

theorem handle_late_task_ok {s sc : Scheduler} {i : Int} (h : handle_late_task s i = .ok sc) :
    ∃ lt, 0 ≤ i ∧ s.queue[i.toNat]? = some lt ∧
      sc = { s with
        currentSpeed := if lt.blocked then s.LowSpeed else s.currentSpeed
        queue := s.queue.eraseIdx i.toNat
        totalLateCount := s.totalLateCount + 1 } := by
  unfold handle_late_task at h
  split at h
  · simp at h
  · rename_i hi
    simp only [vecAt] at h
    split at h
    · simp at h
    · rename_i lt hlt
      split at hlt
      · rename_i x hx
        simp only [Except.ok.injEq] at hlt h
        subst hlt h
        refine ⟨x, not_lt.mp hi, hx, ?_⟩
        by_cases hb : x.blocked = true <;> simp [hb]
      · simp at hlt

theorem calculate_exec_time_ok {s s3 : Scheduler} {e : ℚ}
    (h : calculate_exec_time s = .ok (s3, e)) :
    ∃ t0 rest ef eq sa sb, s.taskSet = t0 :: rest ∧
      execTime_finish s = .ok ef ∧
      execTime_queue s (check_earliest_queue_task s) = .ok eq ∧
      e = min ((t0.arrivalTime : ℚ) - s.upTime) (min ef eq) ∧
      chargeStep { s with nextArriveTime := (t0.arrivalTime : ℚ) } e = .ok sa ∧
      (if e = ef then handle_finished_task sa else .ok sa) = .ok sb ∧
      (if e = eq then handle_late_task sb (check_earliest_queue_task s) else .ok sb) =
        .ok s3 := by
  unfold calculate_exec_time at h
  split at h
  · simp at h
  · rename_i t0 ht0
    simp only at h
    split at h
    · simp at h
    · rename_i ef hef
      split at h
      · simp at h
      · rename_i eq heq
        split at h
        · simp at h
        · rename_i sa ha
          split at h
          · simp at h
          · rename_i sb hb
            split at h
            · simp at h
            · rename_i sc hc
              simp only [Except.ok.injEq, Prod.mk.injEq] at h
              obtain ⟨h1, h2⟩ := h
              subst h1 h2
              have hts : ∃ rest, s.taskSet = t0 :: rest := by
                simp only [vecAt] at ht0
                split at ht0
                · rename_i x hx
                  simp only [Except.ok.injEq] at ht0
                  subst ht0
                  cases hl : s.taskSet with
                  | nil => simp [hl] at hx
                  | cons a l =>
                    simp only [hl, List.getElem?_cons_zero, Option.some.injEq] at hx
                    exact ⟨l, by rw [hx]⟩
                · simp at ht0
              obtain ⟨rest, hrest⟩ := hts
              exact ⟨t0, rest, ef, eq, sa, sb, hrest, hef, heq, rfl, ha, hb, hc⟩

theorem Start_body_ok {fuel : Nat} {s s1 : Scheduler} (h : Start_body fuel s = .ok s1) :
    ∃ s2 e s3,
      calculate_exec_time { s with
        upTimeSeries := s.upTimeSeries ++ [s.upTime]
        speedSeries := s.speedSeries ++ [s.currentSpeed] } = .ok (s2, e) ∧
      Start_release fuel { s2 with upTime := s2.upTime + e } = .ok s3 ∧
      Start_dispatch s3 = .ok s1 := by
  unfold Start_body at h
  split at h
  · simp at h
  · rename_i s3 h3
    unfold Start_advance at h3
    simp only at h3
    split at h3
    · simp at h3
    · rename_i s2 e he
      exact ⟨s2, e, s3, he, h3, h⟩

/-- The four outcomes of the dispatch / preemption decision. -/
theorem Start_dispatch_ok {s s1 : Scheduler} (h : Start_dispatch s = .ok s1) :
    s1 = s ∨
    (∃ t rest res, s.runningTask = none ∧ s.queue = t :: rest ∧
      vecAt s.resourceList t.resource = .ok res ∧
      s1 = { s with runningTask := some t, queue := rest, systemCeiling := res.ceiling }) ∨
    (∃ r hd rest, s.runningTask = some r ∧ s.queue = hd :: rest ∧ hd.period < r.period ∧
      hd.period < s.systemCeiling ∧
      s1 = SortQueue { s with runningTask := some hd, queue := rest ++ [r] }) ∨
    (∃ r hd rest v, s.runningTask = some r ∧ s.queue = hd :: rest ∧ hd.period < r.period ∧
      s.systemCeiling ≤ hd.period ∧ calculate_high_speed s hd = .ok v ∧
      s1 = { s with
        queue := { hd with blocked := true } :: rest
        currentSpeed := max s.currentSpeed v }) := by
  cases hrun : s.runningTask with
  | none =>
    cases hq : s.queue with
    | nil =>
      rw [Start_dispatch_nothing s hrun hq] at h
      simp only [Except.ok.injEq] at h
      exact Or.inl h.symm
    | cons t rest =>
      simp only [Start_dispatch, hrun, hq] at h
      split at h
      · simp at h
      · rename_i res hres
        simp only [Except.ok.injEq] at h
        right; left
        refine ⟨t, rest, res, rfl, rfl, hres, ?_⟩
        rw [← h]
  | some r =>
    cases hq : s.queue with
    | nil =>
      simp only [Start_dispatch, hrun, hq, Except.ok.injEq] at h
      exact Or.inl h.symm
    | cons hd rest =>
      by_cases hlt : hd.period < r.period
      · by_cases hc : hd.period < s.systemCeiling
        · rw [Start_dispatch_preempt s r hd rest hrun hq hlt hc] at h
          simp only [Except.ok.injEq] at h
          right; right; left
          exact ⟨r, hd, rest, rfl, rfl, hlt, hc, h.symm⟩
        · cases hv : calculate_high_speed s hd with
          | error err =>
            exfalso
            have hh : ∀ q : List Task,
                calculate_high_speed { s with queue := q, runningTask := some r }
                  { hd with blocked := true } = .error err := by
              intro q
              rw [← hv]
              exact calculate_high_speed_congr _ _ _ _ hrun.symm rfl rfl rfl rfl rfl
            simp [Start_dispatch, hrun, hq, hlt, hc, hh] at h
          | ok v =>
            rw [Start_dispatch_block s r hd rest v hrun hq hlt (not_lt.mp hc) hv] at h
            simp only [Except.ok.injEq] at h
            right; right; right
            exact ⟨r, hd, rest, v, rfl, rfl, hlt, not_lt.mp hc, hv, by rw [← h, hrun]⟩
      · simp only [Start_dispatch, hrun, hq, hlt, if_false, Except.ok.injEq] at h
        exact Or.inl h.symm

theorem sorted_byPeriod (l : List Task) :
    (l.insertionSort (fun a b => a.period ≤ b.period)).Sorted (fun a b => a.period ≤ b.period) := by
  haveI : IsTotal Task (fun a b => a.period ≤ b.period) := ⟨fun a b => le_total _ _⟩
  haveI : IsTrans Task (fun a b => a.period ≤ b.period) := ⟨fun _ _ _ h1 h2 => le_trans h1 h2⟩
  exact List.sorted_insertionSort _ l

/-- The release loop: the tasks `rel` it releases join the queue, the queue is
re-sorted when something was released, every record of the task set is an old
record, possibly with a new arrival time, and a non-null `runningTask` reads one of
the released records afterwards. -/
theorem Start_release_loop_ok (fuel : Nat) {s s1 : Scheduler}
    (h : Start_release_loop fuel s = .ok s1) :
    ∃ rel q ts run, s1 = { s with queue := q, taskSet := ts, runningTask := run } ∧
      q.Perm (s.queue ++ rel) ∧
      (rel = [] → q = s.queue ∧ ts = s.taskSet ∧ run = s.runningTask) ∧
      (rel ≠ [] → q.Sorted (fun a b => a.period ≤ b.period)) ∧
      ts.length = s.taskSet.length ∧
      (s.runningTask = none → run = none) ∧
      (s.runningTask ≠ none → rel ≠ [] → ∃ x ∈ rel, run = some x) ∧
      (∀ P : Task → Prop, (∀ t a, P t → P { t with arrivalTime := a }) →
        (∀ t ∈ s.taskSet, P t) → (∀ t ∈ rel, P t) ∧ ∀ t ∈ ts, P t) := by
  induction fuel generalizing s with
  | zero => simp [Start_release_loop] at h
  | succ n ih =>
    unfold Start_release_loop at h
    split at h
    · simp at h
    · rename_i t0 ht0
      have hmem : t0 ∈ s.taskSet := by
        simp only [vecAt] at ht0
        split at ht0
        · rename_i x hx
          simp only [Except.ok.injEq] at ht0
          subst ht0
          exact List.getElem?_mem hx
        · simp at ht0
      split at h
      · obtain ⟨rel, q, ts, run, heq, hperm, hun, hsorted, hlen, hnone, hsome, hP⟩ := ih h
        refine ⟨t0 :: rel, q, ts, run, ?_, ?_, ?_, ?_, ?_, ?_, ?_, ?_⟩
        · rw [heq]
          rfl
        · refine hperm.trans ?_
          simp only [SortQueue, SortTaskSet]
          have := List.perm_insertionSort (fun a b : Task => a.period ≤ b.period)
            (s.queue ++ [t0])
          refine (this.append_right rel).trans ?_
          simp
        · intro hnil
          simp at hnil
        · intro _
          by_cases hr : rel = []
          · rw [(hun hr).1]
            exact sorted_byPeriod _
          · exact hsorted hr
        · rw [hlen]
          simp [SortTaskSet, SortQueue, List.length_insertionSort]
        · intro hn
          apply hnone
          simp [SortTaskSet, SortQueue, hn]
        · intro hn _
          by_cases hr : rel = []
          · refine ⟨t0, by simp, ?_⟩
            rw [(hun hr).2.2]
            cases hrun : s.runningTask with
            | none => exact absurd hrun hn
            | some r => simp [SortTaskSet, SortQueue, hrun]
          · have hn2 : (SortTaskSet { SortQueue { s with
                runningTask := s.runningTask.map fun _ => t0
                queue := s.queue ++ [t0] } with
                taskSet := (SortQueue { s with
                  runningTask := s.runningTask.map fun _ => t0
                  queue := s.queue ++ [t0] }).taskSet.set 0
                  { t0 with arrivalTime := t0.arrivalTime + t0.period } }).runningTask ≠ none := by
              cases hrun : s.runningTask with
              | none => exact absurd hrun hn
              | some r => simp [SortTaskSet, SortQueue, hrun]
            obtain ⟨x, hx, hrx⟩ := hsome hn2 hr
            exact ⟨x, by simp [hx], hrx⟩
        · intro P hstable hall
          have hall2 : ∀ t ∈ (SortTaskSet { SortQueue { s with
              runningTask := s.runningTask.map fun _ => t0
              queue := s.queue ++ [t0] } with
              taskSet := (SortQueue { s with
                runningTask := s.runningTask.map fun _ => t0
                queue := s.queue ++ [t0] }).taskSet.set 0
                { t0 with arrivalTime := t0.arrivalTime + t0.period } }).taskSet, P t := by
            intro t ht
            simp only [SortTaskSet, SortQueue, List.mem_insertionSort] at ht
            rcases List.mem_or_eq_of_mem_set ht with ht1 | ht1
            · exact hall t ht1
            · rw [ht1]
              exact hstable _ _ (hall t0 hmem)
          obtain ⟨h1, h2⟩ := hP P hstable hall2
          refine ⟨?_, h2⟩
          intro t ht
          rcases List.mem_cons.mp ht with rfl | ht
          · exact hall _ hmem
          · exact h1 t ht
      · simp only [Except.ok.injEq] at h
        subst h
        exact ⟨[], s.queue, s.taskSet, s.runningTask, rfl, by simp, fun _ => ⟨rfl, rfl, rfl⟩,
          fun hne => absurd rfl hne, rfl, fun hn => hn, fun _ hne => absurd rfl hne,
          fun P _ hall => ⟨by simp, hall⟩⟩

/-- `Init` writes the indices, the stored initial task set, the two speeds and the
ceilings, and nothing else. -/
theorem Init_ok {s s0 : Scheduler} (h : Init s = .ok s0) :
    ∃ low rl, pickSpeed (utilization s.taskSet) s.cpuSpeedSet = .ok low ∧
      (∀ t ∈ s.taskSet, t.period ≠ 0) ∧
      s0 = { s with
        taskSet := assignIndex s.taskSet 0
        initialTaskSet :=
          (assignIndex s.taskSet 0).insertionSort (fun a b => a.period ≤ b.period)
        LowSpeed := low
        currentSpeed := low
        resourceList := rl } := by
  rw [Init_eq] at h
  split at h
  · simp at h
  · rename_i target ht
    split at h
    · simp at h
    · rename_i low hl
      split at h
      · simp at h
      · rename_i rl hrl
        simp only [Except.ok.injEq] at h
        have hper : ∀ t ∈ s.taskSet, t.period ≠ 0 := by
          intro t htm h0
          rw [sumUtilization_zero_period s.taskSet 0 ⟨t, htm, h0⟩] at ht
          simp at ht
        rw [sumUtilization_eq s.taskSet 0 hper] at ht
        simp only [Except.ok.injEq, zero_add] at ht
        subst ht
        exact ⟨low, rl, hl, hper, h.symm⟩

theorem calculate_exec_time_queue {s s3 : Scheduler} {e : ℚ}
    (h : calculate_exec_time s = .ok (s3, e)) :
    s3.queue = s.queue ∨ ∃ i lt, s.queue[i]? = some lt ∧ s3.queue = s.queue.eraseIdx i := by
  obtain ⟨t0, rest, ef, eq, sa, sb, -, -, -, -, ha, hb, hc⟩ := calculate_exec_time_ok h
  obtain ⟨pc, rfl⟩ := chargeStep_ok ha
  have hqb : sb.queue = s.queue := by
    split at hb
    · obtain ⟨r, -, rfl⟩ := handle_finished_task_ok hb
      rfl
    · simp only [Except.ok.injEq] at hb
      subst hb
      rfl
  split at hc
  · obtain ⟨lt, -, hlt, rfl⟩ := handle_late_task_ok hc
    right
    rw [hqb] at hlt
    exact ⟨_, lt, hlt, by simp [hqb]⟩
  · simp only [Except.ok.injEq] at hc
    subst hc
    exact Or.inl hqb

theorem Start_release_queue_sorted (fuel : Nat) {s s1 : Scheduler}
    (h : Start_release fuel s = .ok s1)
    (hs : s.queue.Sorted (fun a b => a.period ≤ b.period)) :
    s1.queue.Sorted (fun a b => a.period ≤ b.period) := by
  unfold Start_release at h
  split at h
  · obtain ⟨rel, q, ts, run, rfl, -, hun, hsorted, -⟩ := Start_release_loop_ok fuel h
    by_cases hr : rel = []
    · rw [show q = s.queue from (hun hr).1]
      exact hs
    · exact hsorted hr
  · simp only [Except.ok.injEq] at h
    subst h
    exact hs

theorem Start_dispatch_queue_sorted {s s1 : Scheduler} (h : Start_dispatch s = .ok s1)
    (hs : s.queue.Sorted (fun a b => a.period ≤ b.period)) :
    s1.queue.Sorted (fun a b => a.period ≤ b.period) := by
  rcases Start_dispatch_ok h with rfl | ⟨t, rest, res, -, hq, -, rfl⟩ |
    ⟨r, hd, rest, -, hq, -, -, rfl⟩ | ⟨r, hd, rest, v, -, hq, -, -, -, rfl⟩
  · exact hs
  · rw [hq] at hs
    exact hs.of_cons
  · exact sorted_byPeriod _
  · rw [hq] at hs
    have h1 := List.rel_of_sorted_cons hs
    exact List.sorted_cons.mpr ⟨fun b hb => h1 b hb, hs.of_cons⟩

theorem Start_body_queue_sorted (fuel : Nat) {s s1 : Scheduler}
    (h : Start_body fuel s = .ok s1)
    (hs : s.queue.Sorted (fun a b => a.period ≤ b.period)) :
    s1.queue.Sorted (fun a b => a.period ≤ b.period) := by
  obtain ⟨s2, e, s3, hcalc, hrel, hdis⟩ := Start_body_ok h
  have h2 : s2.queue.Sorted (fun a b => a.period ≤ b.period) := by
    rcases calculate_exec_time_queue hcalc with hq | ⟨i, lt, -, hq⟩
    · rw [hq]
      exact hs
    · rw [hq]
      exact hs.sublist (List.eraseIdx_sublist _ _)
  exact Start_dispatch_queue_sorted hdis (Start_release_queue_sorted fuel hrel h2)

theorem Start_steps_queue_sorted (fuel n : Nat) {s s1 : Scheduler}
    (h : Start_steps fuel n s = .ok s1)
    (hs : s.queue.Sorted (fun a b => a.period ≤ b.period)) :
    s1.queue.Sorted (fun a b => a.period ≤ b.period) := by
  induction n generalizing s with
  | zero =>
    simp only [Start_steps, Except.ok.injEq] at h
    subst h
    exact hs
  | succ n ih =>
    unfold Start_steps at h
    split at h
    · split at h
      · simp at h
      · rename_i s2 h2
        exact ih h (Start_body_queue_sorted fuel h2 hs)
    · simp only [Except.ok.injEq] at h
      subst h
      exact hs
/-! ## The speed stays a level of the table and the boost stays tied to a flag -/

theorem scanSpeeds_mem (target : ℚ) (l : List ℚ) (cur : Option ℚ) (v : ℚ)
    (h : scanSpeeds target l cur = some v) : v ∈ l ∨ cur = some v := by
  induction l generalizing cur with
  | nil => exact Or.inr h
  | cons a l ih =>
    simp only [scanSpeeds] at h
    split at h
    · simp only [Option.some.injEq] at h
      exact Or.inl (by simp [h])
    · rcases ih _ h with h1 | h1
      · exact Or.inl (by simp [h1])
      · simp only [Option.some.injEq] at h1
        exact Or.inl (by simp [h1])

theorem pickSpeed_mem {target : ℚ} {l : List ℚ} {v : ℚ} (h : pickSpeed target l = .ok v) :
    v ∈ l := by
  unfold pickSpeed at h
  split at h
  · rename_i w hw
    simp only [Except.ok.injEq] at h
    subst h
    rcases scanSpeeds_mem target l none w hw with h1 | h1
    · exact h1
    · simp at h1
  · simp at h

theorem calculate_high_speed_mem {s : Scheduler} {T : Task} {v : ℚ}
    (h : calculate_high_speed s T = .ok v) : v ∈ s.cpuSpeedSet := by
  unfold calculate_high_speed at h
  split at h
  · simp at h
  · split at h
    · simp at h
    · simp only at h
      split at h
      · simp at h
      · split at h
        · simp at h
        · exact pickSpeed_mem h

/-- The speed invariant: `LowSpeed` and `currentSpeed` are levels of the table and
`currentSpeed` is not below `LowSpeed`. -/
theorem calculate_exec_time_speed {s s3 : Scheduler} {e : ℚ}
    (h : calculate_exec_time s = .ok (s3, e)) :
    s3.currentSpeed = s.currentSpeed ∨ s3.currentSpeed = s.LowSpeed := by
  obtain ⟨t0, rest, ef, eq, sa, sb, -, -, -, -, ha, hb, hc⟩ := calculate_exec_time_ok h
  obtain ⟨pc, rfl⟩ := chargeStep_ok ha
  have hb2 : (sb.currentSpeed = s.currentSpeed ∨ sb.currentSpeed = s.LowSpeed) ∧
      sb.LowSpeed = s.LowSpeed := by
    split at hb
    · obtain ⟨r, -, rfl⟩ := handle_finished_task_ok hb
      by_cases hbl : r.blocked = true <;> simp [hbl]
    · simp only [Except.ok.injEq] at hb
      subst hb
      exact ⟨Or.inl rfl, rfl⟩
  split at hc
  · obtain ⟨lt, -, -, rfl⟩ := handle_late_task_ok hc
    by_cases hbl : lt.blocked = true
    · right
      simp [hbl, hb2.2]
    · simpa [hbl] using hb2.1
  · simp only [Except.ok.injEq] at hc
    subst hc
    exact hb2.1

theorem Start_release_fields (fuel : Nat) {s s1 : Scheduler}
    (h : Start_release fuel s = .ok s1) :
    ∃ q ts run, s1 = { s with queue := q, taskSet := ts, runningTask := run } ∧
      run.isSome = s.runningTask.isSome := by
  unfold Start_release at h
  split at h
  · obtain ⟨rel, q, ts, run, heq, -, hun, -, -, hnone, hsome, -⟩ := Start_release_loop_ok fuel h
    refine ⟨q, ts, run, heq, ?_⟩
    cases hrun : s.runningTask with
    | none => simp [hnone hrun]
    | some r =>
      by_cases hr : rel = []
      · rw [(hun hr).2.2, hrun]
      · obtain ⟨x, -, hx⟩ := hsome (by simp [hrun]) hr
        simp [hx]
  · simp only [Except.ok.injEq] at h
    subst h
    exact ⟨s.queue, s.taskSet, s.runningTask, rfl, rfl⟩

theorem Start_body_speed (fuel : Nat) {s s1 : Scheduler} (h : Start_body fuel s = .ok s1)
    (hlow : s.LowSpeed ∈ s.cpuSpeedSet) (hcur : s.currentSpeed ∈ s.cpuSpeedSet)
    (hle : s.LowSpeed ≤ s.currentSpeed) :
    s1.LowSpeed ∈ s1.cpuSpeedSet ∧ s1.currentSpeed ∈ s1.cpuSpeedSet ∧
      s1.LowSpeed ≤ s1.currentSpeed := by
  obtain ⟨hres, htbl, hl, -, -⟩ := Start_body_config fuel h
  obtain ⟨s2, e, s3, hcalc, hrel, hdis⟩ := Start_body_ok h
  have hc2 := calculate_exec_time_config hcalc
  have h2 : s2.currentSpeed ∈ s.cpuSpeedSet ∧ s.LowSpeed ≤ s2.currentSpeed := by
    rcases calculate_exec_time_speed hcalc with h2 | h2
    · rw [h2]
      exact ⟨hcur, hle⟩
    · rw [h2]
      exact ⟨hlow, le_refl _⟩
  obtain ⟨q, ts, run, rfl, -⟩ := Start_release_fields fuel hrel
  rw [htbl, hl]
  refine ⟨hlow, ?_⟩
  rcases Start_dispatch_ok hdis with rfl | ⟨t, rest, res, -, -, -, rfl⟩ |
    ⟨r, hd, rest, -, -, -, -, rfl⟩ | ⟨r, hd, rest, v, -, -, -, -, hv, rfl⟩
  · exact h2
  · exact h2
  · exact h2
  · have hvm : v ∈ s.cpuSpeedSet := by
      have := calculate_high_speed_mem hv
      rw [← hc2.2.1]
      exact this
    show max s2.currentSpeed v ∈ s.cpuSpeedSet ∧ s.LowSpeed ≤ max s2.currentSpeed v
    refine ⟨?_, le_trans h2.2 (le_max_left _ _)⟩
    rcases max_choice s2.currentSpeed v with hm | hm
    · rw [hm]
      exact h2.1
    · rw [hm]
      exact hvm
/-! ## Counting the instances -/

theorem intMax_lt_fltMax : (intMax : ℚ) < fltMax := by
  norm_num [intMax, fltMax]

/-- C11: for a speed table of six strictly ascending speeds, `get_wattage` of the
speed of level `i` is the `i`-th entry of
`0.116, 0.279, 0.390, 0.570, 0.747, 0.925`, for each `i` in `0..5`; hence of two
speeds of the table the higher one has the strictly higher wattage. -/
theorem C11_get_wattage_levels (s : Scheduler) (c0 c1 c2 c3 c4 c5 : ℚ)
    (htbl : s.cpuSpeedSet = [c0, c1, c2, c3, c4, c5])
    (h01 : c0 < c1) (h12 : c1 < c2) (h23 : c2 < c3) (h34 : c3 < c4) (h45 : c4 < c5) :
    (∀ i : Fin 6, ∃ v w, s.cpuSpeedSet[i.val]? = some v ∧ wattageLevels[i.val]? = some w ∧
      get_wattage s v = .ok w) ∧
    (∀ x ∈ s.cpuSpeedSet, ∀ y ∈ s.cpuSpeedSet, x < y →
      ∃ wx wy, get_wattage s x = .ok wx ∧ get_wattage s y = .ok wy ∧ wx < wy) := by
  have e0 : get_wattage s c0 = .ok (116 / 1000) := by
    simp [get_wattage, wattageOf, vecAt, htbl, ne_of_lt h01,
      ne_of_lt (h01.trans h12), ne_of_lt (h01.trans (h12.trans h23)),
      ne_of_lt (h01.trans (h12.trans (h23.trans h34))),
      ne_of_lt (h01.trans (h12.trans (h23.trans (h34.trans h45))))]
  have e1 : get_wattage s c1 = .ok (279 / 1000) := by
    simp [get_wattage, wattageOf, vecAt, htbl, ne_of_lt h12, ne_of_lt (h12.trans h23),
      ne_of_lt (h12.trans (h23.trans h34)), ne_of_lt (h12.trans (h23.trans (h34.trans h45)))]
  have e2 : get_wattage s c2 = .ok (390 / 1000) := by
    simp [get_wattage, wattageOf, vecAt, htbl, ne_of_lt h23, ne_of_lt (h23.trans h34),
      ne_of_lt (h23.trans (h34.trans h45))]
  have e3 : get_wattage s c3 = .ok (570 / 1000) := by
    simp [get_wattage, wattageOf, vecAt, htbl, ne_of_lt h34, ne_of_lt (h34.trans h45)]
  have e4 : get_wattage s c4 = .ok (747 / 1000) := by
    simp [get_wattage, wattageOf, vecAt, htbl, ne_of_lt h45]
  have e5 : get_wattage s c5 = .ok (925 / 1000) := by
    simp [get_wattage, wattageOf, vecAt, htbl]
  constructor
  · intro i
    fin_cases i
    · exact ⟨c0, _, by simp [htbl], by simp [wattageLevels], e0⟩
    · exact ⟨c1, _, by simp [htbl], by simp [wattageLevels], e1⟩
    · exact ⟨c2, _, by simp [htbl], by simp [wattageLevels], e2⟩
    · exact ⟨c3, _, by simp [htbl], by simp [wattageLevels], e3⟩
    · exact ⟨c4, _, by simp [htbl], by simp [wattageLevels], e4⟩
    · exact ⟨c5, _, by simp [htbl], by simp [wattageLevels], e5⟩
  · intro x hx y hy hxy
    rw [htbl] at hx hy
    simp only [List.mem_cons, List.mem_singleton, List.not_mem_nil, or_false] at hx hy
    rcases hx with rfl | rfl | rfl | rfl | rfl | rfl <;>
      rcases hy with rfl | rfl | rfl | rfl | rfl | rfl <;>
      first
        | exact absurd hxy (lt_irrefl _)
        | (exfalso; linarith)
        | (refine ⟨_, _, by assumption, by assumption, ?_⟩; norm_num)

/-- C11 at the six example speeds. -/
theorem C11_get_wattage_levels_witness :
    (∀ i : Fin 6, ∃ v w, exampleNoTasks.cpuSpeedSet[i.val]? = some v ∧
      wattageLevels[i.val]? = some w ∧ get_wattage exampleNoTasks v = .ok w) ∧
    (∀ x ∈ exampleNoTasks.cpuSpeedSet, ∀ y ∈ exampleNoTasks.cpuSpeedSet, x < y →
      ∃ wx wy, get_wattage exampleNoTasks x = .ok wx ∧ get_wattage exampleNoTasks y = .ok wy ∧
        wx < wy) :=
  C11_get_wattage_levels exampleNoTasks (f32 (1/10)) (f32 (1/5)) (f32 (2/5)) (f32 (3/5))
    (f32 (4/5)) 1 (by decide!)
    (by decide!) (by decide!) (by decide!) (by decide!) (by decide!)

/-- C12 fails in the run of `examplePreempt`.  The dispatch of the first iteration
sets `systemCeiling` to 20, the ceiling of the resource of the task `L` it starts.
After the second iteration the task read through `runningTask` is `H` (period 5,
bound to resource 1, whose ceiling is 5), and `systemCeiling` is still 20.  The
third iteration takes the preemption branch: `H`, at the head of the queue,
replaces the running record (period 10) and that record goes back to the queue;
the branch does not assign `systemCeiling`, which is still 20 while `H` runs. -/
theorem C12_stale_ceiling_after_preemption :
    (examplePreemptAfter 1).runningTask.map (fun (t : Task) => (t.period, t.resource)) =
      some (20, 0) ∧
    (examplePreemptAfter 1).systemCeiling = 20 ∧
    (examplePreemptAfter 2).runningTask.map (fun (t : Task) => (t.period, t.resource)) =
      some (5, 1) ∧
    (examplePreemptAfter 2).resourceList =
      [{ index := 0, ceiling := 20 }, { index := 1, ceiling := 5 },
        { index := 2, ceiling := intMax }] ∧
    (examplePreemptAfter 2).systemCeiling = 20 ∧
    (match Init examplePreempt with
      | .error e => .error e
      | .ok s0 => Start_steps 4 2 s0) = Except.ok (examplePreemptAfter 2) ∧
    (match Init examplePreempt with
      | .error e => .error e
      | .ok s0 => Start_steps 4 3 s0) = Except.ok (examplePreemptAfter 3) ∧
    (examplePreemptAfter 2).queue.map (fun (t : Task) => (t.index, t.period)) = [(1, 5)] ∧
    (examplePreemptAfter 3).queue.map (fun (t : Task) => (t.index, t.period)) =
      [(2, 10), (2, 10)] ∧
    (examplePreemptAfter 3).runningTask.map (fun (t : Task) => (t.period, t.resource)) =
      some (5, 1) ∧
    (examplePreemptAfter 3).systemCeiling = 20 := by
  decide!
/-! ## Claims about the ready queue -/

/-- C13: the ready queue is sorted ascending by period after every iteration of
`Start`.  An iteration keeps a sorted queue sorted, whatever it does (release of
arrivals, dispatch, preemption with push-back of the running task, flagging of the
head, removal of a late task); the queue is empty after the constructor and
`Init`, so it is sorted after any number of iterations. -/
theorem C13_queue_sorted :
    (∀ (s s1 : Scheduler) (fuel : Nat),
      s.queue.Sorted (fun a b => a.period ≤ b.period) → Start_body fuel s = .ok s1 →
      s1.queue.Sorted (fun a b => a.period ≤ b.period)) ∧
    (∀ (D : ℚ) (tasks : List Task) (k : Nat) (speeds : List ℚ) (s0 s1 : Scheduler)
      (fuel n : Nat),
      Init (construct D tasks k speeds) = .ok s0 → Start_steps fuel n s0 = .ok s1 →
      s0.queue = [] ∧ s1.queue.Sorted (fun a b => a.period ≤ b.period)) := by
  constructor
  · intro s s1 fuel hs h
    exact Start_body_queue_sorted fuel h hs
  · intro D tasks k speeds s0 s1 fuel n hinit hsteps
    obtain ⟨low, rl, -, -, rfl⟩ := Init_ok hinit
    exact ⟨rfl, Start_steps_queue_sorted fuel n hsteps List.sorted_nil⟩

/-- C13 at the run of `exampleExpired`: after three iterations the queue holds the
tasks of periods 5 and 10, in this order. -/
theorem C13_queue_sorted_witness :
    ((exampleExpiredAfter 3).queue.map fun (t : Task) => t.period) = [5, 10] ∧
    (exampleExpiredAfter 0).queue = [] ∧
    (exampleExpiredAfter 3).queue.Sorted (fun a b => a.period ≤ b.period) :=
  ⟨by decide!,
    C13_queue_sorted.2 100 [newTask 0 10 15 0, newTask 12 5 1 1] 2
      exampleSpeeds (exampleExpiredAfter 0) (exampleExpiredAfter 3) 4 3 (by decide!)
      (by decide!)⟩
/-! ## Claims about the speed -/

/-- C19: after `Init` and after every iteration of `Start`, `currentSpeed` is a member
of the speed table and is not below `LowSpeed`, itself a member of the table; so
`get_wattage` is only ever asked for a level of the table. -/
theorem C19_speed_in_table :
    (∀ (s s0 : Scheduler), Init s = .ok s0 →
      s0.LowSpeed ∈ s0.cpuSpeedSet ∧ s0.currentSpeed ∈ s0.cpuSpeedSet ∧
        s0.LowSpeed ≤ s0.currentSpeed) ∧
    (∀ (s s1 : Scheduler) (fuel : Nat),
      s.LowSpeed ∈ s.cpuSpeedSet → s.currentSpeed ∈ s.cpuSpeedSet →
      s.LowSpeed ≤ s.currentSpeed → Start_body fuel s = .ok s1 →
      s1.LowSpeed ∈ s1.cpuSpeedSet ∧ s1.currentSpeed ∈ s1.cpuSpeedSet ∧
        s1.LowSpeed ≤ s1.currentSpeed) ∧
    (∀ (s s0 s1 : Scheduler) (fuel n : Nat), Init s = .ok s0 →
      Start_steps fuel n s0 = .ok s1 →
      s1.LowSpeed ∈ s1.cpuSpeedSet ∧ s1.currentSpeed ∈ s1.cpuSpeedSet ∧
        s1.LowSpeed ≤ s1.currentSpeed) := by
  have hinit : ∀ (s s0 : Scheduler), Init s = .ok s0 →
      s0.LowSpeed ∈ s0.cpuSpeedSet ∧ s0.currentSpeed ∈ s0.cpuSpeedSet ∧
        s0.LowSpeed ≤ s0.currentSpeed := by
    intro s s0 h
    obtain ⟨low, rl, hlow, -, rfl⟩ := Init_ok h
    exact ⟨pickSpeed_mem hlow, pickSpeed_mem hlow, le_refl _⟩
  have hsteps : ∀ (n fuel : Nat) (s s1 : Scheduler),
      (s.LowSpeed ∈ s.cpuSpeedSet ∧ s.currentSpeed ∈ s.cpuSpeedSet ∧
        s.LowSpeed ≤ s.currentSpeed) → Start_steps fuel n s = .ok s1 →
      s1.LowSpeed ∈ s1.cpuSpeedSet ∧ s1.currentSpeed ∈ s1.cpuSpeedSet ∧
        s1.LowSpeed ≤ s1.currentSpeed := by
    intro n
    induction n with
    | zero =>
      intro fuel s s1 hs h
      simp only [Start_steps, Except.ok.injEq] at h
      subst h
      exact hs
    | succ n ih =>
      intro fuel s s1 hs h
      unfold Start_steps at h
      split at h
      · split at h
        · simp at h
        · rename_i s2 h2
          exact ih fuel s2 s1 (Start_body_speed fuel h2 hs.1 hs.2.1 hs.2.2) h
      · simp only [Except.ok.injEq] at h
        subst h
        exact hs
  refine ⟨hinit, ?_, ?_⟩
  · intro s s1 fuel h1 h2 h3 h
    exact Start_body_speed fuel h h1 h2 h3
  · intro s s0 s1 fuel n h0 h
    exact hsteps n fuel s0 s1 (hinit s s0 h0) h

/-- C19 at the run of `exampleLostFlag`: after three iterations the speed is the
level 1 of the table, above the low speed, the float `0.8`. -/
theorem C19_speed_in_table_witness :
    ((exampleLostFlagAfter 3).LowSpeed, (exampleLostFlagAfter 3).currentSpeed) =
      (f32 (4/5), 1) ∧
    ((exampleLostFlagAfter 3).LowSpeed ∈ (exampleLostFlagAfter 3).cpuSpeedSet ∧
      (exampleLostFlagAfter 3).currentSpeed ∈ (exampleLostFlagAfter 3).cpuSpeedSet ∧
      (exampleLostFlagAfter 3).LowSpeed ≤ (exampleLostFlagAfter 3).currentSpeed) :=
  ⟨by decide!,
    C19_speed_in_table.2.2 exampleLostFlag (exampleLostFlagAfter 0) (exampleLostFlagAfter 3)
      4 3 (by decide!) (by decide!)⟩

/-- C20 fails in the run of `exampleLostFlag`.  The third iteration flags `H` at the
head of the queue and raises the speed from the float `0.8` to 1.  In the fourth the
running record finishes and the flagged `H` is started.  The fifth iteration
releases the next instance of `H` at time 6: the release loop writes its record,
which carries no flag, into the storage that `runningTask` points to.  After that
iteration `currentSpeed` is 1, `LowSpeed` is the float `0.8`, and neither a queued
task nor the running record is flagged. -/
theorem C20_boost_without_flag :
    (match Init exampleLostFlag with
      | .error e => .error e
      | .ok s0 => Start_steps 4 5 s0) = Except.ok (exampleLostFlagAfter 5) ∧
    ((exampleLostFlagAfter 2).currentSpeed, (exampleLostFlagAfter 2).LowSpeed) =
      (f32 (4/5), f32 (4/5)) ∧
    ((exampleLostFlagAfter 3).currentSpeed, (exampleLostFlagAfter 3).LowSpeed) =
      (1, f32 (4/5)) ∧
    (exampleLostFlagAfter 3).queue.map (fun (t : Task) => (t.index, t.blocked)) =
      [(1, true), (2, false)] ∧
    (exampleLostFlagAfter 4).runningTask.map
      (fun (t : Task) => (t.index, t.arrivalTime, t.blocked)) = some (1, 1, true) ∧
    (exampleLostFlagAfter 5).upTime = 6 ∧
    ((exampleLostFlagAfter 5).currentSpeed, (exampleLostFlagAfter 5).LowSpeed) =
      (1, f32 (4/5)) ∧
    (exampleLostFlagAfter 5).queue.map (fun (t : Task) => (t.index, t.blocked)) =
      [(1, false), (2, false)] ∧
    (exampleLostFlagAfter 5).runningTask.map
      (fun (t : Task) => (t.index, t.arrivalTime, t.blocked)) = some (1, 6, false) := by
  decide!

end Scheduler

end Bats
